import Mathlib

/-!
Verification development for the MLB schedule ingest utility
(src/mlb-team-first-pitch-time/mlb_schedule_ingest.py).

The program fetches a season schedule as JSON, keeps regular-season games
(game-type marker "R"), deduplicates them by their `gamePk` identifier,
converts each UTC start time to the local civil time of the venue via a
static venue-to-IANA-timezone table, and writes one CSV row per kept game.

This file shallowly embeds the post-fetch part of `get_mlb_schedule`:
the JSON payload is a typed structure in which every field the code reads
with a mandatory access is `Option`-valued (a `none` models a missing key,
which raises `KeyError` in the source), and the imperative loop becomes
explicit state passing.  Library behaviour the source relies on
(`datetime.fromisoformat`, `astimezone` with `pytz` zones, `strftime`)
is embedded as executable Lean functions over the proleptic Gregorian
calendar; the timezone rules are the modern (post-2007 US, current EU,
current fixed-offset) rules of the zones in the table, which are the rules
in force for every date the program processes.  Naive timestamps (no UTC
offset in the string) are interpreted as UTC, modelling a machine whose
system timezone is UTC.
-/

namespace MlbIngest

/-! ## Proleptic Gregorian calendar arithmetic -/

/-- Gregorian leap-year test. -/
def isLeap (y : Nat) : Bool :=
  (y % 4 == 0 && y % 100 != 0) || y % 400 == 0

/-- Number of leap years in the range.  Used to count days across whole years. -/
def leapsBefore (y : Nat) : Nat :=
  y / 4 + y / 400 - y / 100

/-- Days in each month of a year. -/
def monthLengths (leap : Bool) : List Nat :=
  [31, if leap then 29 else 28, 31, 30, 31, 30, 31, 31, 30, 31, 30, 31]

/-- Days of the months preceding month `m` in a non-leap year (`m` is 1-based). -/
def cumDaysBefore (m : Nat) : Nat :=
  match m with
  | 1 => 0 | 2 => 31 | 3 => 59 | 4 => 90 | 5 => 120 | 6 => 151
  | 7 => 181 | 8 => 212 | 9 => 243 | 10 => 273 | 11 => 304 | _ => 334

/-- 1-based day of year of the civil date `(y, m, d)`. -/
def doyOf (y m d : Nat) : Nat :=
  cumDaysBefore m + (if isLeap y && decide (2 < m) then 1 else 0) + d

/-- Number of days from 0001-01-01 to the civil date `(y, m, d)`
(proleptic Gregorian). -/
def dayNumber (y m d : Nat) : Nat :=
  365 * (y - 1) + leapsBefore (y - 1) + doyOf y m d - 1

/-- 1970-01-01 is this many days after 0001-01-01. -/
def epochDayNumber : Nat := 719162

/-- Unix epoch seconds of the UT instant `(y, m, d)` plus `secs` seconds. -/
def epochOfUT (y m d secs : Nat) : Int :=
  ((dayNumber y m d : Int) - (epochDayNumber : Int)) * 86400 + (secs : Int)

/-- Number of days in year `y`. -/
def daysInYear (y : Nat) : Nat :=
  if isLeap y then 366 else 365

/-- Walk forward one year at a time, consuming whole years out of a day
count; returns the year reached and the remaining 0-based day of year.
`none` on fuel exhaustion (never reached from `yearDoy`, whose 400-year
block always contains the answer). -/
def yearDoyAux : Nat → Nat → Nat → Option (Nat × Nat)
  | 0, _, _ => none
  | fuel + 1, y, d => if d < daysInYear y then some (y, d) else yearDoyAux fuel (y + 1) (d - daysInYear y)

/-- Year and 0-based day-of-year of a day count since 0001-01-01, found by
skipping whole 400-year cycles (146097 days each) and then walking years. -/
def yearDoy (days : Nat) : Option (Nat × Nat) :=
  yearDoyAux 401 (1 + 400 * (days / 146097)) (days % 146097)

/-- Month and 1-based day from month lengths and a 0-based day offset. -/
def monthDayAux : List Nat → Nat → Nat → Nat × Nat
  | [], m, d => (m, d + 1)
  | n :: rest, m, d => if d < n then (m, d + 1) else monthDayAux rest (m + 1) (d - n)

/-- Month (1-12) and day (1-based) of the 0-based day-of-year `doy`. -/
def monthDay (leap : Bool) (doy : Nat) : Nat × Nat :=
  monthDayAux (monthLengths leap) 1 doy

/-- Day of week of a day count since 0001-01-01, with Sunday = 0
(0001-01-01 is a Monday in the proleptic Gregorian calendar). -/
def weekday (days : Nat) : Nat :=
  (days + 1) % 7

/-- Day of month of the first Sunday of month `m` of year `y`. -/
def firstSundayDom (y m : Nat) : Nat :=
  1 + (7 - weekday (dayNumber y m 1)) % 7

/-- Day of month of the last Sunday of a month with `len` days. -/
def lastSundayDom (y m len : Nat) : Nat :=
  len - weekday (dayNumber y m len)

/-! ## Timezone rules

The rules of the IANA zones appearing in the `venue_timezones` table,
as used by `pytz` for the dates the program processes: United States /
Canada daylight-saving (second Sunday of March 02:00 local standard time
to first Sunday of November 02:00 local daylight time), the European
Union rule for Europe/London (last Sunday of March to last Sunday of
October, both at 01:00 UT), and fixed offsets for the zones without
daylight saving. -/

/-- A timezone: either a fixed offset with one abbreviation, or a
standard offset plus a daylight-saving rule with two abbreviations. -/
inductive ZoneRule where
  | fixed (offSec : Int) (abbr : String)
  | usDst (stdOffSec : Int) (stdAbbr dstAbbr : String)
  | euDst (stdAbbr dstAbbr : String)
deriving DecidableEq

/-- UT instant at which US daylight saving starts in year `y`
(second Sunday of March, 02:00 local standard time). -/
def usDstStart (y : Nat) (stdOffSec : Int) : Int :=
  epochOfUT y 3 (firstSundayDom y 3 + 7) 7200 - stdOffSec

/-- UT instant at which US daylight saving ends in year `y`
(first Sunday of November, 02:00 local daylight time). -/
def usDstEnd (y : Nat) (stdOffSec : Int) : Int :=
  epochOfUT y 11 (firstSundayDom y 11) 7200 - (stdOffSec + 3600)

/-- UT instant at which EU summer time starts in year `y`
(last Sunday of March, 01:00 UT). -/
def euDstStart (y : Nat) : Int :=
  epochOfUT y 3 (lastSundayDom y 3 31) 3600

/-- UT instant at which EU summer time ends in year `y`
(last Sunday of October, 01:00 UT). -/
def euDstEnd (y : Nat) : Int :=
  epochOfUT y 10 (lastSundayDom y 10 31) 3600

/-- UTC offset in seconds and zone abbreviation of a `ZoneRule` at the UT
instant `epoch`, whose UT calendar year is `uy` (daylight-saving
transitions happen far from New Year, so the UT year identifies the
relevant transition pair). -/
def offsetAt (rule : ZoneRule) (uy : Nat) (epoch : Int) : Int × String :=
  match rule with
  | .fixed off abbr => (off, abbr)
  | .usDst stdOff stdAbbr dstAbbr =>
      if usDstStart uy stdOff ≤ epoch ∧ epoch < usDstEnd uy stdOff
      then (stdOff + 3600, dstAbbr) else (stdOff, stdAbbr)
  | .euDst stdAbbr dstAbbr =>
      if euDstStart uy ≤ epoch ∧ epoch < euDstEnd uy
      then (3600, dstAbbr) else (0, stdAbbr)

/-- The zone rules behind the IANA identifiers used by the program;
models `pytz.timezone`, which raises for an unknown identifier. -/
def zoneRuleOf (tz : String) : Option ZoneRule :=
  match tz with
  | "UTC" => some (.fixed 0 "UTC")
  | "America/New_York" => some (.usDst (-18000) "EST" "EDT")
  | "America/Toronto" => some (.usDst (-18000) "EST" "EDT")
  | "America/Chicago" => some (.usDst (-21600) "CST" "CDT")
  | "America/Denver" => some (.usDst (-25200) "MST" "MDT")
  | "America/Los_Angeles" => some (.usDst (-28800) "PST" "PDT")
  | "America/Phoenix" => some (.fixed (-25200) "MST")
  | "America/Mexico_City" => some (.fixed (-21600) "CST")
  | "America/Puerto_Rico" => some (.fixed (-14400) "AST")
  | "Asia/Tokyo" => some (.fixed 32400 "JST")
  | "Europe/London" => some (.euDst "GMT" "BST")
  | _ => none

/-! ## Civil time of an instant -/

/-- A zoned local civil datetime, the result of `astimezone` plus the
zone abbreviation that `strftime` renders with the `Z` directive. -/
structure LocalDT where
  year : Nat
  month : Nat
  day : Nat
  hour : Nat
  minute : Nat
  second : Nat
  abbr : String
deriving DecidableEq

/-- Civil components (year, month, day, seconds within day) of a Unix
instant.  `none` when the resulting calendar date falls outside years
1 to 9999, which is the range supported by Python `datetime`
(`OverflowError` beyond it). -/
def civilOfEpoch (epoch : Int) : Option (Nat × Nat × Nat × Nat) :=
  let days := epoch.fdiv 86400
  let secs := (epoch.emod 86400).toNat
  let dn := days + (epochDayNumber : Int)
  if dn < 0 then none
  else
    match yearDoy dn.toNat with
    | none => none
    | some (y, doy) =>
        if y < 1 ∨ 9999 < y then none
        else
          let md := monthDay (isLeap y) doy
          some (y, md.1, md.2, secs)

/-- `aware_dt.astimezone(zone)` followed by reading the civil fields and
the zone abbreviation: convert the instant `epoch` to the civil time of
`rule`.  `none` models the `OverflowError` raised when the result (or the
UT reading of the instant) leaves the supported year range. -/
def astimezone (epoch : Int) (rule : ZoneRule) : Option LocalDT :=
  match civilOfEpoch epoch with
  | none => none
  | some (uy, _, _, _) =>
      let oa := offsetAt rule uy epoch
      match civilOfEpoch (epoch + oa.1) with
      | none => none
      | some (y, m, d, secs) =>
          some ⟨y, m, d, secs / 3600, secs % 3600 / 60, secs % 60, oa.2⟩

/-! ## `datetime.fromisoformat`

The program feeds `fromisoformat` the API timestamp after replacing
`Z` with `+00:00`.  The parser below accepts the ISO-8601 subset
`YYYY-MM-DD`, optionally followed by a one-character separator and
`HH:MM` or `HH:MM:SS`, optionally followed by a `+HH:MM` or `-HH:MM`
UTC offset (fractional seconds are not modelled), validates the
component ranges exactly as Python does (year at least 1, valid
calendar date, hour below 24, minute and second below 60), and returns
the Unix instant the string denotes.  A string without an offset is a
naive datetime; the model reads it as UTC (a system timezone of UTC). -/

/-- Numeric value of a decimal digit character. -/
def digVal (c : Char) : Option Nat :=
  if c.isDigit then some (c.toNat - 48) else none

/-- Days in month `m` of year `y`. -/
def daysInMonthOf (y m : Nat) : Nat :=
  ((monthLengths (isLeap y)).getD (m - 1) 0)

/-- Parse the optional trailing UTC offset, in seconds. -/
def parseOff (l : List Char) : Option Int :=
  match l with
  | [sgn, o1, o2, ':', o3, o4] => do
      let a ← digVal o1
      let b ← digVal o2
      let c ← digVal o3
      let d ← digVal o4
      let oh := 10 * a + b
      let om := 10 * c + d
      if 23 < oh ∨ 59 < om then none
      else
        let secs : Int := (oh : Int) * 3600 + (om : Int) * 60
        if sgn = '+' then some secs
        else if sgn = '-' then some (-secs) else none
  | _ => none

/-- Parse `HH:MM[:SS]` plus optional offset; seconds within day and the
offset (0 when the timestamp is naive). -/
def parseTime (l : List Char) : Option (Nat × Int) :=
  match l with
  | h1 :: h2 :: ':' :: mi1 :: mi2 :: rest => do
      let a ← digVal h1
      let b ← digVal h2
      let c ← digVal mi1
      let d ← digVal mi2
      let hh := 10 * a + b
      let mm := 10 * c + d
      if 23 < hh ∨ 59 < mm then none
      else
        match rest with
        | [] => some (hh * 3600 + mm * 60, 0)
        | ':' :: s1 :: s2 :: rest2 => do
            let e ← digVal s1
            let f ← digVal s2
            let ss := 10 * e + f
            if 59 < ss then none
            else
              match rest2 with
              | [] => some (hh * 3600 + mm * 60 + ss, 0)
              | _ => do
                  let off ← parseOff rest2
                  some (hh * 3600 + mm * 60 + ss, off)
        | _ => do
            let off ← parseOff rest
            some (hh * 3600 + mm * 60, off)
  | _ => none

/-- `datetime.fromisoformat` on the character list of the string:
the Unix instant denoted, or `none` for a `ValueError`. -/
def parseIso (l : List Char) : Option Int :=
  match l with
  | y1 :: y2 :: y3 :: y4 :: '-' :: m1 :: m2 :: '-' :: d1 :: d2 :: rest => do
      let a ← digVal y1
      let b ← digVal y2
      let c ← digVal y3
      let d ← digVal y4
      let e ← digVal m1
      let f ← digVal m2
      let g ← digVal d1
      let h ← digVal d2
      let y := 1000 * a + 100 * b + 10 * c + d
      let m := 10 * e + f
      let dd := 10 * g + h
      if y < 1 ∨ m < 1 ∨ 12 < m ∨ dd < 1 ∨ daysInMonthOf y m < dd then none
      else
        match rest with
        | [] => some (epochOfUT y m dd 0)
        | _ :: t => do
            let st ← parseTime t
            some (epochOfUT y m dd st.1 - st.2)
  | _ => none

/-- `datetime.fromisoformat` as used by the program. -/
def fromisoformat (s : String) : Option Int :=
  parseIso s.data

/-- Replace every occurrence of the character `Z` by `+00:00`:
the effect of the Python call `s.replace('Z', '+00:00')` (the pattern
is a single character, so occurrences cannot overlap). -/
def replaceZchars : List Char → List Char
  | [] => []
  | c :: cs =>
      if c = 'Z' then '+' :: '0' :: '0' :: ':' :: '0' :: '0' :: replaceZchars cs
      else c :: replaceZchars cs

/-- `s.replace('Z', '+00:00')` on strings. -/
def replaceZ (s : String) : String :=
  String.mk (replaceZchars s.data)

/-! ## `strftime` formatting -/

/-- Decimal digit characters of `n`, most significant first; the fuel is
always sufficient because `n / 10` strictly decreases. -/
def natDigitsAux : Nat → Nat → List Char
  | 0, _ => []
  | fuel + 1, n =>
      if n < 10 then [Nat.digitChar n]
      else natDigitsAux fuel (n / 10) ++ [Nat.digitChar (n % 10)]

/-- Decimal digit characters of `n`. -/
def natChars (n : Nat) : List Char :=
  natDigitsAux (n + 1) n

/-- `n` rendered in decimal, left-padded with zeros to width `k`
(the behaviour of `strftime` numeric directives). -/
def padLeft (k n : Nat) : List Char :=
  List.replicate (k - (natChars n).length) '0' ++ natChars n

/-- The hour rendered by the 12-hour-clock directive `I`. -/
def hour12 (h : Nat) : Nat :=
  if h % 12 = 0 then 12 else h % 12

/-- The characters rendered by the `p` directive. -/
def ampmChars (h : Nat) : List Char :=
  if h < 12 then ['A', 'M'] else ['P', 'M']

/-- `local_dt.strftime` with format `Y-m-d`, e.g. `2025-04-01`. -/
def fmtDate (t : LocalDT) : String :=
  String.mk (padLeft 4 t.year ++ '-' :: (padLeft 2 t.month ++ '-' :: padLeft 2 t.day))

/-- `local_dt.strftime` with format `I:M p Z`, e.g. `07:05 PM EDT`. -/
def fmtTime (t : LocalDT) : String :=
  String.mk (padLeft 2 (hour12 t.hour) ++ ':' :: (padLeft 2 t.minute ++ ' ' :: (ampmChars t.hour ++ ' ' :: t.abbr.data)))

/-! ## Payload data model

One game record of the JSON payload, holding exactly the fields the
program reads.  `none` models a missing key: `gamePk`, `gameDate`, the
nested team-name paths and the venue name are read with mandatory
bracket access (a missing key raises `KeyError`); the game-type marker
is read with `.get`, which yields `None` when absent. -/

structure GameJson where
  /-- `game['gamePk']`: the game identifier. -/
  gamePk : Option Nat
  /-- `game.get("gameType")`: the game-type marker. -/
  gameType : Option String
  /-- `game["gameDate"]`: the UTC timestamp string. -/
  gameDate : Option String
  /-- `game["teams"]["away"]["team"]["name"]` (`none` when any level is missing). -/
  awayTeamName : Option String
  /-- `game["teams"]["home"]["team"]["name"]` (`none` when any level is missing). -/
  homeTeamName : Option String
  /-- `game["venue"]["name"]` (`none` when either level is missing). -/
  venueName : Option String
deriving DecidableEq

/-- One entry of the payload's `dates` list; `date_info["games"]` is a
mandatory access. -/
structure DateInfo where
  games : Option (List GameJson)
deriving DecidableEq

/-- The parsed payload; `schedule_data.get("dates")`. -/
structure Schedule where
  dates : Option (List DateInfo)
deriving DecidableEq

/-- One CSV data row, written as
`[date_str, time_str, away_team, home_team, venue]`, together with the
payload record it was produced from (instrumentation used to state
which games were emitted; not part of the serialized row). -/
structure Row where
  date_str : String
  time_str : String
  away_team : String
  home_team : String
  venue : String
  src : GameJson
deriving DecidableEq

/-- The mutable state of the processing loop: the `processed_games` set
(modelled as the list of inserted identifiers, newest first; membership
checks make it duplicate-free), the `game_count` counter, the data rows
written so far, and the warnings printed so far. -/
structure RunState where
  processed_games : List Nat
  game_count : Nat
  rows : List Row
  warnings : List String
deriving DecidableEq

/-- The initial state: empty set, zero count, no rows, no warnings. -/
def initState : RunState := ⟨[], 0, [], []⟩

/-- The exceptions the loop body can raise: `KeyError` (missing payload
key; `pytz.UnknownTimeZoneError` is a `KeyError` subclass and is merged
here, though it is unreachable because every identifier in the table is
known), `ValueError` (unparseable timestamp), `OverflowError`
(converted time outside the supported year range). -/
inductive RunError where
  | keyError (key : String)
  | valueError
  | overflowError
deriving DecidableEq

/-- The `venue_timezones` dictionary of the source, in source order. -/
def venue_timezones : List (String × String) :=
  [("Oriole Park at Camden Yards", "America/New_York"),
   ("Fenway Park", "America/New_York"),
   ("Yankee Stadium", "America/New_York"),
   ("Tropicana Field", "America/New_York"),
   ("Rogers Centre", "America/Toronto"),
   ("Rate Field", "America/Chicago"),
   ("Progressive Field", "America/New_York"),
   ("Comerica Park", "America/New_York"),
   ("Kauffman Stadium", "America/Chicago"),
   ("Target Field", "America/Chicago"),
   ("Angel Stadium", "America/Los_Angeles"),
   ("Oakland-Alameda County Coliseum", "America/Los_Angeles"),
   ("Sutter Health Park", "America/Los_Angeles"),
   ("T-Mobile Park", "America/Los_Angeles"),
   ("Globe Life Field", "America/Chicago"),
   ("Daikin Park", "America/Chicago"),
   ("Truist Park", "America/New_York"),
   ("loanDepot park", "America/New_York"),
   ("Citi Field", "America/New_York"),
   ("Citizens Bank Park", "America/New_York"),
   ("Nationals Park", "America/New_York"),
   ("Wrigley Field", "America/Chicago"),
   ("Great American Ball Park", "America/New_York"),
   ("American Family Field", "America/Chicago"),
   ("PNC Park", "America/New_York"),
   ("Busch Stadium", "America/Chicago"),
   ("Chase Field", "America/Phoenix"),
   ("Coors Field", "America/Denver"),
   ("Dodger Stadium", "America/Los_Angeles"),
   ("Petco Park", "America/Los_Angeles"),
   ("Oracle Park", "America/Los_Angeles"),
   ("London Stadium", "Europe/London"),
   ("Estadio Alfredo Harp Helú", "America/Mexico_City"),
   ("Hiram Bithorn Stadium", "America/Puerto_Rico"),
   ("Tokyo Dome", "Asia/Tokyo"),
   ("George M. Steinbrenner Field", "America/New_York"),
   ("Bristol Motor Speedway", "America/New_York"),
   ("Journey Bank Ballpark", "America/New_York"),
   ("Muncy Bank Ballpark at Historic Bowman Field", "America/New_York"),
   ("Minute Maid Park", "America/Chicago")]

/-- `venue_timezones.get(venue, "UTC")`. -/
def venueTzOf (venue : String) : String :=
  (venue_timezones.lookup venue).getD "UTC"

/-- The warning printed for a venue missing from the table (the source
quotes the venue name; the quotes are elided here). -/
def warnMsg (venue : String) : String :=
  "Warning: Timezone not found for venue " ++ venue ++ ". Defaulting to UTC."

/-- Process one game record: the body of the inner loop.  Returns the
state after the iteration and the exception it raised, if any; in the
source an exception propagates out of the loop, leaving the file with
the rows written so far, so the state accompanying an error carries the
mutations that happened before the raise (the identifier is inserted
and the counter incremented before the remaining fields are read). -/
def processGame (st : RunState) (g : GameJson) : RunState × Option RunError :=
  match g.gamePk with
  | none => (st, some (.keyError "gamePk"))
  | some game_pk =>
      if g.gameType ≠ some "R" ∨ game_pk ∈ st.processed_games then (st, none)
      else
        let st1 : RunState :=
          ⟨game_pk :: st.processed_games, st.game_count + 1, st.rows, st.warnings⟩
        match g.gameDate with
        | none => (st1, some (.keyError "gameDate"))
        | some game_utc_time_str =>
            match g.awayTeamName with
            | none => (st1, some (.keyError "teams"))
            | some away_team =>
                match g.homeTeamName with
                | none => (st1, some (.keyError "teams"))
                | some home_team =>
                    match g.venueName with
                    | none => (st1, some (.keyError "venue"))
                    | some venue =>
                        match fromisoformat (replaceZ game_utc_time_str) with
                        | none => (st1, some .valueError)
                        | some epoch =>
                            let home_timezone_str := venueTzOf venue
                            let st2 : RunState :=
                              if home_timezone_str = "UTC"
                              then ⟨st1.processed_games, st1.game_count, st1.rows,
                                    st1.warnings ++ [warnMsg venue]⟩
                              else st1
                            match zoneRuleOf home_timezone_str with
                            | none => (st2, some (.keyError home_timezone_str))
                            | some home_timezone =>
                                match astimezone epoch home_timezone with
                                | none => (st2, some .overflowError)
                                | some local_dt =>
                                    (⟨st2.processed_games, st2.game_count,
                                      st2.rows ++
                                        [⟨fmtDate local_dt, fmtTime local_dt,
                                          away_team, home_team, venue, g⟩],
                                      st2.warnings⟩, none)

/-- Process the games of one date entry in order, stopping at the first
exception. -/
def processGames (st : RunState) : List GameJson → RunState × Option RunError
  | [] => (st, none)
  | g :: gs =>
      match processGame st g with
      | (st1, none) => processGames st1 gs
      | (st1, some e) => (st1, some e)

/-- Process the `dates` entries in order; `date_info["games"]` is a
mandatory access, stopping at the first exception. -/
def processDates (st : RunState) : List DateInfo → RunState × Option RunError
  | [] => (st, none)
  | di :: ds =>
      match di.games with
      | none => (st, some (.keyError "games"))
      | some gs =>
          match processGames st gs with
          | (st1, none) => processDates st1 ds
          | (st1, some e) => (st1, some e)

/-- The processing phase of `get_mlb_schedule`, from the parsed payload
to the final loop state and the exception that aborted the run, if any.
`if schedule_data.get("dates"):` guards the loop: a missing `dates` key
and an empty list are both falsy. -/
def get_mlb_schedule (sched : Schedule) : RunState × Option RunError :=
  match sched.dates with
  | none => (initState, none)
  | some ds => if ds = [] then (initState, none) else processDates initState ds

/-- The header row, `['Date', 'Local Start Time', 'Away Team', 'Home Team', 'Venue']`. -/
def headerRow : List String :=
  ["Date", "Local Start Time", "Away Team", "Home Team", "Venue"]

/-- The cells of one data row as passed to `csv_writer.writerow`. -/
def rowCells (r : Row) : List String :=
  [r.date_str, r.time_str, r.away_team, r.home_team, r.venue]

/-- The rows of the CSV file as written: the header first, then one
data row per processed game, in write order.  The file is opened (and
the header written) before the loop runs, so this is the file content
both for completed and for aborted runs. -/
def csvContent (st : RunState) : List (List String) :=
  headerRow :: st.rows.map rowCells

/-- First line of the zero-count report. -/
def noGamesMsg1 : String :=
  "No regular season games found for the specified date range."

/-- Second line of the zero-count report. -/
def noGamesMsg2 : String :=
  "The 2025 schedule may not be available yet from the API."

/-- The nonzero count report. -/
def countMsg (n : Nat) : String :=
  "Processed a total of " ++ toString n ++ " games."

/-- The save confirmation. -/
def savedMsg : String :=
  "Schedule saved to data/mlb_schedule_2025.csv"

/-- The console line printed by the matching `except` clause: a
`KeyError` is reported as a parse error with the missing key, anything
else as an unexpected error. -/
def errorMessage : RunError → String
  | .keyError k => "Could not parse the API response. Unexpected data structure: Missing key " ++ k
  | _ => "An unexpected error occurred"

/-- The console lines printed after the loop: the reported exception on
an aborted run, otherwise the distinct zero report or the count report. -/
def finalMessages (res : RunState × Option RunError) : List String :=
  match res.2 with
  | some e => [errorMessage e]
  | none =>
      if res.1.game_count = 0 then [noGamesMsg1, noGamesMsg2]
      else [countMsg res.1.game_count, savedMsg]

/-! ## Observers used to state the properties -/

/-- All game records of the payload in encounter order: outer `dates`
entries first, inner game lists within each. -/
def flatGames (sched : Schedule) : List GameJson :=
  (sched.dates.getD []).flatMap (fun di => di.games.getD [])

/-- The warning lines one iteration appends: one line exactly when the
venue is read and its timezone lookup falls back to `UTC`. -/
def warnOf (g : GameJson) : List String :=
  match g.venueName with
  | some venue => if venueTzOf venue = "UTC" then [warnMsg venue] else []
  | none => []

/-- The row a game record produces when every read succeeds: the pure
per-record computation of the loop body (field reads, timestamp parse,
venue lookup, zone conversion, formatting), with `none` when any step
raises. -/
def emitRow (g : GameJson) : Option Row :=
  match g.gameDate, g.awayTeamName, g.homeTeamName, g.venueName with
  | some ds, some away_team, some home_team, some venue =>
      match fromisoformat (replaceZ ds) with
      | none => none
      | some epoch =>
          match zoneRuleOf (venueTzOf venue) with
          | none => none
          | some rule =>
              match astimezone epoch rule with
              | none => none
              | some loc => some ⟨fmtDate loc, fmtTime loc, away_team, home_team, venue, g⟩
  | _, _, _, _ => none

/-- The games that get a CSV row, and the final content of the seen set,
when the list is processed starting from seen set `seen`: keep the first
occurrence with marker `R` of each identifier, in encounter order.
(A record with a missing identifier is skipped here; during a real run
it aborts processing, so this function describes completed runs exactly
and aborted runs up to the abort point.) -/
def specStep (seen : List Nat) : List GameJson → List GameJson × List Nat
  | [] => ([], seen)
  | g :: gs =>
      match g.gamePk with
      | none => specStep seen gs
      | some pk =>
          if g.gameType = some "R" ∧ pk ∉ seen then
            let r := specStep (pk :: seen) gs
            (g :: r.1, r.2)
          else specStep seen gs

/-- Number of data rows whose source record carries identifier `pk`. -/
def rowsForPk (pk : Nat) (st : RunState) : Nat :=
  (st.rows.filter (fun r => r.src.gamePk == some pk)).length

/-- The record is an occurrence of identifier `pk` with the
regular-season marker. -/
def isROcc (pk : Nat) (g : GameJson) : Bool :=
  g.gamePk == some pk && g.gameType == some "R"

/-- No record of the payload carries the regular-season marker. -/
def noRGames (sched : Schedule) : Prop :=
  ∀ g ∈ flatGames sched, g.gameType ≠ some "R"

/-- Rows-per-identifier bookkeeping invariant of the loop state: a seen
identifier has at most one row, an unseen one has none. -/
def PkInv (st : RunState) : Prop :=
  ∀ pk : Nat,
    (pk ∈ st.processed_games → rowsForPk pk st ≤ 1) ∧
    (pk ∉ st.processed_games → rowsForPk pk st = 0)

/-! ## Format-shape checkers -/

/-- Consume exactly `k` decimal digits; returns the remaining characters. -/
def checkDigits : Nat → List Char → Option (List Char)
  | 0, l => some l
  | _ + 1, [] => none
  | k + 1, c :: l => if c.isDigit then checkDigits k l else none

/-- The string has the shape `YYYY-MM-DD`: four digits, a dash, two
digits, a dash, two digits, nothing more. -/
def dateShape (s : String) : Bool :=
  match checkDigits 4 s.data with
  | some ('-' :: r1) =>
      match checkDigits 2 r1 with
      | some ('-' :: r2) => checkDigits 2 r2 == some []
      | _ => false
  | _ => false

/-- The string has the shape `hh:mm AM TZ` / `hh:mm PM TZ`: two digits,
a colon, two digits, a space, `AM` or `PM`, a space, and a nonempty
alphabetic timezone abbreviation. -/
def timeShape (s : String) : Bool :=
  match checkDigits 2 s.data with
  | some (':' :: r1) =>
      match checkDigits 2 r1 with
      | some (' ' :: p :: 'M' :: ' ' :: rest) =>
          (p == 'A' || p == 'P') && !rest.isEmpty && rest.all Char.isAlpha
      | _ => false
  | _ => false

/-- The string is a plausible zone abbreviation: nonempty, alphabetic. -/
def abbrOkB (a : String) : Bool :=
  !a.data.isEmpty && a.data.all Char.isAlpha

/-- Every abbreviation the rule can render is a plausible abbreviation. -/
def ruleAbbrsOk : ZoneRule → Bool
  | .fixed _ a => abbrOkB a
  | .usDst _ a b => abbrOkB a && abbrOkB b
  | .euDst a b => abbrOkB a && abbrOkB b

/-! ## Concrete payloads used in counterexamples and witnesses -/

/-- A regular-season game at Fenway Park with a fixed UTC start time. -/
def fenwayGame : GameJson :=
  ⟨some 745804, some "R", some "2025-04-01T23:05:00Z",
   some "New York Yankees", some "Boston Red Sox", some "Fenway Park"⟩

/-- A payload holding exactly the Fenway game. -/
def fenwaySched : Schedule := ⟨some [⟨some [fenwayGame]⟩]⟩

/-- A game record with the game-type marker missing and every other
read field present. -/
def noTypeGame : GameJson :=
  ⟨some 700001, none, some "2025-04-01T23:05:00Z",
   some "Chicago Cubs", some "Milwaukee Brewers", some "American Family Field"⟩

/-- A payload holding exactly the record without a game-type marker. -/
def noTypeSched : Schedule := ⟨some [⟨some [noTypeGame]⟩]⟩

/-- A non-regular-season (spring training) game record. -/
def springGame : GameJson :=
  ⟨some 600001, some "S", some "2025-03-04T18:05:00Z",
   some "Chicago Cubs", some "Milwaukee Brewers", some "American Family Field"⟩

/-- A payload in which identifier 600001 occurs twice, both occurrences
spring training. -/
def dupSpringSched : Schedule := ⟨some [⟨some [springGame, springGame]⟩]⟩

/-- A game record missing its identifier, not regular season. -/
def noPkGame : GameJson :=
  ⟨none, some "S", some "2025-03-04T18:05:00Z",
   some "Chicago Cubs", some "Milwaukee Brewers", some "American Family Field"⟩

/-- A payload with zero regular-season games in which processing aborts
on a record missing its identifier. -/
def noPkSched : Schedule := ⟨some [⟨some [noPkGame]⟩]⟩

/-- A regular-season game at a venue absent from the timezone table. -/
def unknownVenueGame : GameJson :=
  ⟨some 745900, some "R", some "2025-04-01T23:05:00Z",
   some "Chicago Cubs", some "Milwaukee Brewers", some "Field of Dreams"⟩

/-- A regular-season game record with identifier 745901 missing its
timestamp. -/
def noDateGame : GameJson :=
  ⟨some 745901, some "R", none,
   some "Chicago Cubs", some "Milwaukee Brewers", some "American Family Field"⟩

/-- A non-regular-season occurrence of identifier 745804 (same
identifier as the Fenway game, marker `S`). -/
def steinbrennerGame : GameJson :=
  ⟨some 745804, some "S", some "2025-03-04T18:05:00Z",
   some "New York Yankees", some "Boston Red Sox",
   some "George M. Steinbrenner Field"⟩

/-- A payload in which identifier 745804 occurs three times: one non-`R`
occurrence, then an `R` occurrence, then a duplicate `R` occurrence on
a later date entry. -/
def dupRSched : Schedule :=
  ⟨some [⟨some [steinbrennerGame, fenwayGame]⟩, ⟨some [fenwayGame]⟩]⟩

/-- The row the Fenway game emits. -/
def fenwayRow : Row :=
  ⟨"2025-04-01", "07:05 PM EDT", "New York Yankees", "Boston Red Sox",
   "Fenway Park", fenwayGame⟩

/-- The row the unknown-venue game emits (UTC fallback). -/
def unknownVenueRow : Row :=
  ⟨"2025-04-01", "11:05 PM UTC", "Chicago Cubs", "Milwaukee Brewers",
   "Field of Dreams", unknownVenueGame⟩

/-! ## Lemmas: decimal rendering and format shapes -/

theorem digitChar_isDigit {n : Nat} (h : n < 10) : (Nat.digitChar n).isDigit = true := by
  interval_cases n <;> decide

theorem natDigitsAux_digits :
    ∀ fuel n, ∀ c ∈ natDigitsAux fuel n, c.isDigit = true := by
  intro fuel
  induction fuel with
  | zero => intro n c hc; simp [natDigitsAux] at hc
  | succ k ih =>
      intro n c hc
      by_cases h : n < 10
      · simp only [natDigitsAux, if_pos h, List.mem_singleton] at hc
        subst hc
        exact digitChar_isDigit h
      · simp only [natDigitsAux, if_neg h, List.mem_append, List.mem_singleton] at hc
        rcases hc with hc | hc
        · exact ih _ _ hc
        · subst hc
          exact digitChar_isDigit (Nat.mod_lt _ (by omega))

theorem natDigitsAux_length_le :
    ∀ fuel n k, n < 10 ^ k → 0 < k → (natDigitsAux fuel n).length ≤ k := by
  intro fuel
  induction fuel with
  | zero => intro n k _ _; simp [natDigitsAux]
  | succ f ih =>
      intro n k hn hk
      by_cases h : n < 10
      · simp only [natDigitsAux, if_pos h, List.length_singleton]
        omega
      · have hk2 : 2 ≤ k := by
          by_contra hlt
          have : k = 1 := by omega
          subst this
          simp at hn
          omega
        have hdiv : n / 10 < 10 ^ (k - 1) := by
          have h10 : (0:ℕ) < 10 := by norm_num
          rw [Nat.div_lt_iff_lt_mul h10]
          calc n < 10 ^ k := hn
            _ = 10 ^ (k - 1) * 10 := by
                  rw [← pow_succ]
                  congr 1
                  omega
        have := ih (n / 10) (k - 1) hdiv (by omega)
        simp only [natDigitsAux, if_neg h, List.length_append, List.length_singleton]
        omega

theorem natChars_digits (n : Nat) : ∀ c ∈ natChars n, c.isDigit = true :=
  natDigitsAux_digits (n + 1) n

theorem natChars_length_le {n k : Nat} (hn : n < 10 ^ k) (hk : 0 < k) :
    (natChars n).length ≤ k :=
  natDigitsAux_length_le (n + 1) n k hn hk

theorem padLeft_digits (k n : Nat) : ∀ c ∈ padLeft k n, c.isDigit = true := by
  intro c hc
  simp only [padLeft, List.mem_append, List.mem_replicate] at hc
  rcases hc with ⟨_, hc⟩ | hc
  · subst hc; decide
  · exact natChars_digits n c hc

theorem padLeft_length {k n : Nat} (hn : n < 10 ^ k) (hk : 0 < k) :
    (padLeft k n).length = k := by
  have := natChars_length_le hn hk
  simp only [padLeft, List.length_append, List.length_replicate]
  omega

theorem checkDigits_append :
    ∀ (l r : List Char), (∀ c ∈ l, c.isDigit = true) →
      checkDigits l.length (l ++ r) = some r := by
  intro l
  induction l with
  | nil => intro r _; rfl
  | cons c l ih =>
      intro r h
      have hc : c.isDigit = true := h c (by simp)
      simp only [List.length_cons, List.cons_append, checkDigits, if_pos hc]
      exact ih r (fun x hx => h x (by simp [hx]))

theorem checkDigits_padLeft {k n : Nat} (hn : n < 10 ^ k) (hk : 0 < k) (r : List Char) :
    checkDigits k (padLeft k n ++ r) = some r := by
  have h := checkDigits_append (padLeft k n) r (padLeft_digits k n)
  rwa [padLeft_length hn hk] at h

theorem hour12_le (h : Nat) : hour12 h ≤ 12 := by
  unfold hour12
  split
  · exact le_refl 12
  · exact Nat.le_of_lt (Nat.lt_of_lt_of_le (Nat.mod_lt _ (by norm_num)) (by norm_num))

theorem dateShape_fmtDate {t : LocalDT}
    (hy : t.year < 10000) (hm : t.month < 100) (hd : t.day < 100) :
    dateShape (fmtDate t) = true := by
  have hy4 : t.year < 10 ^ 4 := Nat.lt_of_lt_of_le hy (by norm_num)
  have hm2 : t.month < 10 ^ 2 := Nat.lt_of_lt_of_le hm (by norm_num)
  have hd2 : t.day < 10 ^ 2 := Nat.lt_of_lt_of_le hd (by norm_num)
  have e1 := checkDigits_padLeft hy4 (by norm_num)
    ('-' :: (padLeft 2 t.month ++ '-' :: padLeft 2 t.day))
  have e2 := checkDigits_padLeft hm2 (by norm_num) ('-' :: padLeft 2 t.day)
  have e3 := checkDigits_padLeft hd2 (by norm_num) ([] : List Char)
  rw [List.append_nil] at e3
  unfold dateShape fmtDate
  simp only [String.data]
  rw [e1]
  simp only []
  rw [e2]
  simp only []
  rw [e3]
  rfl

theorem timeShape_fmtTime {t : LocalDT}
    (hmin : t.minute < 100) (habbr : abbrOkB t.abbr = true) :
    timeShape (fmtTime t) = true := by
  have hh2 : hour12 t.hour < 10 ^ 2 :=
    Nat.lt_of_le_of_lt (hour12_le t.hour) (by norm_num)
  have hm2 : t.minute < 10 ^ 2 := Nat.lt_of_lt_of_le hmin (by norm_num)
  have e1 := checkDigits_padLeft hh2 (by norm_num)
    (':' :: (padLeft 2 t.minute ++ ' ' :: (ampmChars t.hour ++ ' ' :: t.abbr.data)))
  have e2 := checkDigits_padLeft hm2 (by norm_num)
    (' ' :: (ampmChars t.hour ++ ' ' :: t.abbr.data))
  simp only [abbrOkB, Bool.and_eq_true] at habbr
  unfold timeShape fmtTime
  simp only [String.data]
  rw [e1]
  simp only []
  rw [e2]
  by_cases hhr : t.hour < 12
  · simp only [ampmChars, if_pos hhr, List.cons_append, List.nil_append]
    simp [habbr.1, habbr.2]
  · simp only [ampmChars, if_neg hhr, List.cons_append, List.nil_append]
    simp [habbr.1, habbr.2]

/-! ## Lemmas: calendar bounds -/

theorem yearDoyAux_lt :
    ∀ fuel y d y' d', yearDoyAux fuel y d = some (y', d') → d' < daysInYear y' := by
  intro fuel
  induction fuel with
  | zero => intro y d y' d' h; simp [yearDoyAux] at h
  | succ f ih =>
      intro y d y' d' h
      unfold yearDoyAux at h
      split at h
      · simp only [Option.some.injEq, Prod.mk.injEq] at h
        obtain ⟨h1, h2⟩ := h
        subst h1; subst h2
        assumption
      · exact ih _ _ _ _ h

theorem yearDoy_lt {n y d : Nat} (h : yearDoy n = some (y, d)) : d < daysInYear y :=
  yearDoyAux_lt _ _ _ _ _ h

theorem monthDayAux_bounds :
    ∀ (lens : List Nat) (m d : Nat), d < lens.sum → (∀ x ∈ lens, x ≤ 31) →
      m ≤ (monthDayAux lens m d).1 ∧ (monthDayAux lens m d).1 < m + lens.length ∧
      1 ≤ (monthDayAux lens m d).2 ∧ (monthDayAux lens m d).2 ≤ 31 := by
  intro lens
  induction lens with
  | nil => intro m d hd _; simp at hd
  | cons n rest ih =>
      intro m d hd hall
      by_cases h : d < n
      · simp only [monthDayAux, if_pos h, List.length_cons]
        have hn : n ≤ 31 := hall n (by simp)
        omega
      · simp only [monthDayAux, if_neg h, List.length_cons]
        have hd' : d - n < rest.sum := by
          simp only [List.sum_cons] at hd
          omega
        have := ih (m + 1) (d - n) hd' (fun x hx => hall x (by simp [hx]))
        omega

theorem monthLengths_sum (b : Bool) :
    (monthLengths b).sum = if b then 366 else 365 := by
  cases b <;> decide

theorem monthLengths_le (b : Bool) : ∀ x ∈ monthLengths b, x ≤ 31 := by
  cases b <;> decide

theorem monthLengths_length (b : Bool) : (monthLengths b).length = 12 := by
  cases b <;> decide

theorem monthDay_bounds {b : Bool} {doy : Nat}
    (h : doy < (if b then 366 else 365)) :
    1 ≤ (monthDay b doy).1 ∧ (monthDay b doy).1 ≤ 12 ∧
    1 ≤ (monthDay b doy).2 ∧ (monthDay b doy).2 ≤ 31 := by
  have hsum : doy < (monthLengths b).sum := by rw [monthLengths_sum]; exact h
  have := monthDayAux_bounds (monthLengths b) 1 doy hsum (monthLengths_le b)
  rw [monthLengths_length b] at this
  unfold monthDay
  omega

theorem int_emod_secs_lt (e : Int) : (e.emod 86400).toNat < 86400 := by
  have h1 : 0 ≤ e.emod 86400 := Int.emod_nonneg e (by norm_num)
  have h2 : e.emod 86400 < 86400 := Int.emod_lt_of_pos e (by norm_num)
  omega

theorem civilOfEpoch_bounds {e : Int} {y m d s : Nat}
    (h : civilOfEpoch e = some (y, m, d, s)) :
    1 ≤ y ∧ y ≤ 9999 ∧ 1 ≤ m ∧ m ≤ 12 ∧ 1 ≤ d ∧ d ≤ 31 ∧ s < 86400 := by
  simp only [civilOfEpoch] at h
  split at h
  · exact absurd h (by simp)
  · rename_i hneg
    split at h
    · exact absurd h (by simp)
    · rename_i y0 doy hyd
      split at h
      · exact absurd h (by simp)
      · rename_i hrange
        simp only [Option.some.injEq, Prod.mk.injEq] at h
        obtain ⟨hy, hm, hd, hs⟩ := h
        subst hy; subst hm; subst hd; subst hs
        have hdoy := yearDoy_lt hyd
        unfold daysInYear at hdoy
        have hb := monthDay_bounds hdoy
        push_neg at hrange
        exact ⟨hrange.1, hrange.2, hb.1, hb.2.1, hb.2.2.1, hb.2.2.2, int_emod_secs_lt e⟩

/-! ## Lemmas: zone abbreviations -/

theorem zoneRuleOf_abbrs {s : String} {r : ZoneRule}
    (h : zoneRuleOf s = some r) : ruleAbbrsOk r = true := by
  unfold zoneRuleOf at h
  repeat' split at h
  all_goals first
    | exact Option.noConfusion h
    | (injection h with h; subst h; decide)

theorem offsetAt_abbrOk {r : ZoneRule} (hr : ruleAbbrsOk r = true)
    (uy : Nat) (e : Int) : abbrOkB (offsetAt r uy e).2 = true := by
  cases r with
  | fixed o a => simpa [offsetAt] using hr
  | usDst o a b =>
      simp only [ruleAbbrsOk, Bool.and_eq_true] at hr
      simp only [offsetAt]
      split <;> simp [hr.1, hr.2]
  | euDst a b =>
      simp only [ruleAbbrsOk, Bool.and_eq_true] at hr
      simp only [offsetAt]
      split <;> simp [hr.1, hr.2]

theorem astimezone_shape {e : Int} {r : ZoneRule} {loc : LocalDT}
    (h : astimezone e r = some loc) (hr : ruleAbbrsOk r = true) :
    dateShape (fmtDate loc) = true ∧ timeShape (fmtTime loc) = true := by
  simp only [astimezone] at h
  split at h
  · exact absurd h (by simp)
  · split at h
    · exact absurd h (by simp)
    · rename_i y m d secs hc
      simp only [Option.some.injEq] at h
      subst h
      have hb := civilOfEpoch_bounds hc
      constructor
      · exact dateShape_fmtDate (show y < 10000 by omega) (show m < 100 by omega)
          (show d < 100 by omega)
      · refine timeShape_fmtTime ?_ (offsetAt_abbrOk hr _ e)
        show secs % 3600 / 60 < 100
        omega

/-! ## Lemmas: the per-record computation -/

theorem emitRow_eq {g : GameJson} {r : Row} (h : emitRow g = some r) :
    ∃ ds away home venue epoch rule loc,
      g.gameDate = some ds ∧ g.awayTeamName = some away ∧
      g.homeTeamName = some home ∧ g.venueName = some venue ∧
      fromisoformat (replaceZ ds) = some epoch ∧
      zoneRuleOf (venueTzOf venue) = some rule ∧
      astimezone epoch rule = some loc ∧
      r = ⟨fmtDate loc, fmtTime loc, away, home, venue, g⟩ := by
  unfold emitRow at h
  split at h
  · rename_i ds away home venue hds haw hhm hvn
    split at h
    · exact absurd h (by simp)
    · rename_i epoch hiso
      split at h
      · exact absurd h (by simp)
      · rename_i rule hrule
        split at h
        · exact absurd h (by simp)
        · rename_i loc hast
          simp only [Option.some.injEq] at h
          exact ⟨ds, away, home, venue, epoch, rule, loc,
            hds, haw, hhm, hvn, hiso, hrule, hast, h.symm⟩
  · exact absurd h (by simp)

theorem emitRow_src {g : GameJson} {r : Row} (h : emitRow g = some r) : r.src = g := by
  obtain ⟨ds, away, home, venue, epoch, rule, loc, _, _, _, _, _, _, _, hr⟩ := emitRow_eq h
  rw [hr]

theorem emitRow_shape {g : GameJson} {r : Row} (h : emitRow g = some r) :
    dateShape r.date_str = true ∧ timeShape r.time_str = true := by
  obtain ⟨ds, away, home, venue, epoch, rule, loc, _, _, _, _, _, hrule, hast, hr⟩ :=
    emitRow_eq h
  rw [hr]
  exact astimezone_shape hast (zoneRuleOf_abbrs hrule)

theorem emitRow_fields {g : GameJson} {r : Row} (h : emitRow g = some r) :
    g.gameDate ≠ none ∧ g.awayTeamName ≠ none ∧
    g.homeTeamName ≠ none ∧ g.venueName ≠ none := by
  obtain ⟨ds, away, home, venue, epoch, rule, loc, hds, haw, hhm, hvn, _⟩ := emitRow_eq h
  simp [hds, haw, hhm, hvn]

/-! ## Lemmas: one loop iteration -/

/-- Full case analysis of one iteration: a missing identifier raises the
parse error at once; a record failing the regular-season/duplicate
filter leaves the state untouched; a kept record first enters the seen
set and bumps the counter, then either writes its row (with its warning
when the venue is unknown) or raises with no row written. -/
theorem processGame_cases (st : RunState) (g : GameJson) :
    (g.gamePk = none ∧ processGame st g = (st, some (.keyError "gamePk")))
    ∨ (∃ pk, g.gamePk = some pk ∧
        (g.gameType ≠ some "R" ∨ pk ∈ st.processed_games) ∧
        processGame st g = (st, none))
    ∨ (∃ pk, g.gamePk = some pk ∧ g.gameType = some "R" ∧
        pk ∉ st.processed_games ∧
        ((∃ r, emitRow g = some r ∧
            processGame st g =
              (⟨pk :: st.processed_games, st.game_count + 1,
                st.rows ++ [r], st.warnings ++ warnOf g⟩, none))
         ∨ (∃ e w, emitRow g = none ∧
              processGame st g =
                (⟨pk :: st.processed_games, st.game_count + 1,
                  st.rows, st.warnings ++ w⟩, some e)))) := by
  rcases hpk : g.gamePk with _ | pk
  · left
    exact ⟨rfl, by simp [processGame, hpk]⟩
  · by_cases hkeep : g.gameType ≠ some "R" ∨ pk ∈ st.processed_games
    · right; left
      exact ⟨pk, rfl, hkeep, by simp only [processGame, hpk, if_pos hkeep]⟩
    · push_neg at hkeep
      obtain ⟨hR, hmem⟩ := hkeep
      right; right
      refine ⟨pk, rfl, hR, hmem, ?_⟩
      rcases hds : g.gameDate with _ | ds
      · right
        exact ⟨.keyError "gameDate", [],
          by simp [emitRow, hds],
          by simp [processGame, hpk, hds, hR, hmem]⟩
      · rcases haw : g.awayTeamName with _ | away
        · right
          exact ⟨.keyError "teams", [],
            by simp [emitRow, hds, haw],
            by simp [processGame, hpk, hds, haw, hR, hmem]⟩
        · rcases hhm : g.homeTeamName with _ | home
          · right
            exact ⟨.keyError "teams", [],
              by simp [emitRow, hds, haw, hhm],
              by simp [processGame, hpk, hds, haw, hhm, hR, hmem]⟩
          · rcases hvn : g.venueName with _ | venue
            · right
              exact ⟨.keyError "venue", [],
                by simp [emitRow, hds, haw, hhm, hvn],
                by simp [processGame, hpk, hds, haw, hhm, hvn, hR, hmem]⟩
            · rcases hiso : fromisoformat (replaceZ ds) with _ | epoch
              · right
                exact ⟨.valueError, [],
                  by simp [emitRow, hds, haw, hhm, hvn, hiso],
                  by simp [processGame, hpk, hds, haw, hhm, hvn, hiso, hR, hmem]⟩
              · by_cases hutc : venueTzOf venue = "UTC"
                · have hZ : zoneRuleOf "UTC" = some (.fixed 0 "UTC") := rfl
                  rcases hast : astimezone epoch (ZoneRule.fixed 0 "UTC") with _ | loc
                  · right
                    exact ⟨.overflowError, [warnMsg venue],
                      by simp [emitRow, hds, haw, hhm, hvn, hiso, hutc, hZ, hast],
                      by simp [processGame, hpk, hds, haw, hhm, hvn, hiso, hutc, hZ,
                        hast, hR, hmem]⟩
                  · left
                    refine ⟨⟨fmtDate loc, fmtTime loc, away, home, venue, g⟩,
                      by simp [emitRow, hds, haw, hhm, hvn, hiso, hutc, hZ, hast], ?_⟩
                    simp [processGame, hpk, hds, haw, hhm, hvn, hiso, hutc, hZ, hast,
                      hR, hmem, warnOf]
                · rcases hrule : zoneRuleOf (venueTzOf venue) with _ | rule
                  · right
                    exact ⟨.keyError (venueTzOf venue), [],
                      by simp [emitRow, hds, haw, hhm, hvn, hiso, hrule],
                      by simp [processGame, hpk, hds, haw, hhm, hvn, hiso, hrule,
                        hR, hmem, hutc]⟩
                  · rcases hast : astimezone epoch rule with _ | loc
                    · right
                      exact ⟨.overflowError, [],
                        by simp [emitRow, hds, haw, hhm, hvn, hiso, hrule, hast],
                        by simp [processGame, hpk, hds, haw, hhm, hvn, hiso, hrule,
                          hast, hR, hmem, hutc]⟩
                    · left
                      refine ⟨⟨fmtDate loc, fmtTime loc, away, home, venue, g⟩,
                        by simp [emitRow, hds, haw, hhm, hvn, hiso, hrule, hast], ?_⟩
                      simp [processGame, hpk, hds, haw, hhm, hvn, hiso, hrule, hast,
                        hR, hmem, hutc, warnOf]

theorem processGame_noPk {st : RunState} {g : GameJson} (h : g.gamePk = none) :
    processGame st g = (st, some (.keyError "gamePk")) := by
  simp [processGame, h]

theorem processGame_skip {st : RunState} {g : GameJson} {pk : Nat}
    (hpk : g.gamePk = some pk)
    (hc : g.gameType ≠ some "R" ∨ pk ∈ st.processed_games) :
    processGame st g = (st, none) := by
  simp only [processGame, hpk, if_pos hc]

theorem processGame_emit {st : RunState} {g : GameJson} {pk : Nat} {r : Row}
    (hpk : g.gamePk = some pk) (hR : g.gameType = some "R")
    (hmem : pk ∉ st.processed_games) (her : emitRow g = some r) :
    processGame st g =
      (⟨pk :: st.processed_games, st.game_count + 1,
        st.rows ++ [r], st.warnings ++ warnOf g⟩, none) := by
  rcases processGame_cases st g with ⟨h0, _⟩ | ⟨pk', hpk', hc, _⟩ |
    ⟨pk', hpk', _, _, hrest⟩
  · rw [h0] at hpk; cases hpk
  · rw [hpk'] at hpk
    injection hpk with hpk
    subst hpk
    rcases hc with hc | hc
    · exact absurd hR hc
    · exact absurd hc hmem
  · rw [hpk'] at hpk
    injection hpk with hpk
    subst hpk
    rcases hrest with ⟨r', her', heq⟩ | ⟨e, w, hnone, _⟩
    · rw [her] at her'
      injection her' with her'
      rw [her']
      exact heq
    · rw [her] at hnone
      cases hnone

/-- A record without the regular-season marker never changes the state:
it is either skipped or (when its identifier is missing) aborts before
any mutation. -/
theorem processGame_nonR {st : RunState} {g : GameJson}
    (h : g.gameType ≠ some "R") : (processGame st g).1 = st := by
  rcases processGame_cases st g with ⟨_, heq⟩ | ⟨pk, _, _, heq⟩ |
    ⟨pk, _, hR, _, _⟩
  · rw [heq]
  · rw [heq]
  · exact absurd hR h

/-- A kept record with a missing timestamp, team or venue key raises a
`KeyError` after entering the seen set and bumping the counter, with no
row written. -/
theorem processGame_keyErr {st : RunState} {g : GameJson} {pk : Nat}
    (hpk : g.gamePk = some pk) (hR : g.gameType = some "R")
    (hmem : pk ∉ st.processed_games)
    (hmiss : g.gameDate = none ∨ g.awayTeamName = none ∨
      g.homeTeamName = none ∨ g.venueName = none) :
    ∃ k, processGame st g =
      (⟨pk :: st.processed_games, st.game_count + 1,
        st.rows, st.warnings⟩, some (.keyError k)) := by
  rcases hds : g.gameDate with _ | ds
  · exact ⟨"gameDate", by simp [processGame, hpk, hds, hR, hmem]⟩
  · rcases haw : g.awayTeamName with _ | away
    · exact ⟨"teams", by simp [processGame, hpk, hds, haw, hR, hmem]⟩
    · rcases hhm : g.homeTeamName with _ | home
      · exact ⟨"teams", by simp [processGame, hpk, hds, haw, hhm, hR, hmem]⟩
      · rcases hvn : g.venueName with _ | venue
        · exact ⟨"venue", by simp [processGame, hpk, hds, haw, hhm, hvn, hR, hmem]⟩
        · simp [hds, haw, hhm, hvn] at hmiss

/-! ## Lemmas: the emission specification -/

theorem specStep_append (a b : List GameJson) :
    ∀ seen, specStep seen (a ++ b) =
      ((specStep seen a).1 ++ (specStep (specStep seen a).2 b).1,
       (specStep (specStep seen a).2 b).2) := by
  induction a with
  | nil => intro seen; simp [specStep]
  | cons g a ih =>
      intro seen
      rcases hpk : g.gamePk with _ | pk
      · simp only [List.cons_append, specStep, hpk]
        exact ih seen
      · by_cases hkeep : g.gameType = some "R" ∧ pk ∉ seen
        · simp only [List.cons_append, specStep, hpk, if_pos hkeep, List.append_eq]
          rw [ih (pk :: seen)]
        · simp only [List.cons_append, specStep, hpk, if_neg hkeep]
          exact ih seen

theorem specStep_seen_mono :
    ∀ (gs : List GameJson) (seen : List Nat) (pk : Nat),
      pk ∈ seen → pk ∈ (specStep seen gs).2 := by
  intro gs
  induction gs with
  | nil => intro seen pk h; simpa [specStep] using h
  | cons g gs ih =>
      intro seen pk h
      rcases hpk : g.gamePk with _ | pk0
      · simp only [specStep, hpk]
        exact ih seen pk h
      · by_cases hkeep : g.gameType = some "R" ∧ pk0 ∉ seen
        · simp only [specStep, hpk, if_pos hkeep]
          exact ih _ pk (by simp [h])
        · simp only [specStep, hpk, if_neg hkeep]
          exact ih seen pk h

theorem specStep_R_mem :
    ∀ (gs : List GameJson) (seen : List Nat) (g : GameJson) (pk : Nat),
      g ∈ gs → g.gamePk = some pk → g.gameType = some "R" →
      pk ∈ (specStep seen gs).2 := by
  intro gs
  induction gs with
  | nil => intro seen g pk h; simp at h
  | cons g0 gs ih =>
      intro seen g pk hmem hpk hR
      rcases List.mem_cons.1 hmem with rfl | hmem'
      · by_cases hkeep : g.gameType = some "R" ∧ pk ∉ seen
        · simp only [specStep, hpk, if_pos hkeep]
          exact specStep_seen_mono gs _ pk (by simp)
        · have hin : pk ∈ seen := by
            by_contra hno
            exact hkeep ⟨hR, hno⟩
          simp only [specStep, hpk, if_neg hkeep]
          exact specStep_seen_mono gs seen pk hin
      · rcases hpk0 : g0.gamePk with _ | pk0
        · simp only [specStep, hpk0]
          exact ih seen g pk hmem' hpk hR
        · by_cases hkeep : g0.gameType = some "R" ∧ pk0 ∉ seen
          · simp only [specStep, hpk0, if_pos hkeep]
            exact ih _ g pk hmem' hpk hR
          · simp only [specStep, hpk0, if_neg hkeep]
            exact ih seen g pk hmem' hpk hR

theorem specStep_seen_src :
    ∀ (gs : List GameJson) (seen : List Nat) (pk : Nat),
      pk ∈ (specStep seen gs).2 →
      pk ∈ seen ∨ ∃ g ∈ (specStep seen gs).1, g.gamePk = some pk := by
  intro gs
  induction gs with
  | nil => intro seen pk h; simp only [specStep] at h ⊢; exact .inl h
  | cons g0 gs ih =>
      intro seen pk h
      rcases hpk0 : g0.gamePk with _ | pk0
      · simp only [specStep, hpk0] at h ⊢
        exact ih seen pk h
      · by_cases hkeep : g0.gameType = some "R" ∧ pk0 ∉ seen
        · simp only [specStep, hpk0, if_pos hkeep] at h ⊢
          rcases ih _ pk h with hs | ⟨g, hg, hgpk⟩
          · rcases List.mem_cons.1 hs with rfl | hs'
            · exact .inr ⟨g0, by simp, hpk0⟩
            · exact .inl hs'
          · exact .inr ⟨g, by simp [hg], hgpk⟩
        · simp only [specStep, hpk0, if_neg hkeep] at h ⊢
          exact ih seen pk h

theorem specStep_first :
    ∀ (gs : List GameJson) (seen : List Nat) (g' : GameJson),
      g' ∈ (specStep seen gs).1 →
      ∃ pk, g'.gamePk = some pk ∧ pk ∉ seen ∧
        gs.find? (isROcc pk) = some g' := by
  intro gs
  induction gs with
  | nil => intro seen g' h; simp [specStep] at h
  | cons g0 gs ih =>
      intro seen g' hmem
      rcases hpk0 : g0.gamePk with _ | pk0
      · simp only [specStep, hpk0] at hmem
        obtain ⟨pk, h1, h2, h3⟩ := ih seen g' hmem
        refine ⟨pk, h1, h2, ?_⟩
        rw [List.find?_cons_of_neg _ (by simp [isROcc, hpk0]), h3]
      · by_cases hkeep : g0.gameType = some "R" ∧ pk0 ∉ seen
        · simp only [specStep, hpk0, if_pos hkeep] at hmem
          rcases List.mem_cons.1 hmem with rfl | hmem'
          · refine ⟨pk0, hpk0, hkeep.2, ?_⟩
            rw [List.find?_cons_of_pos _ (by simp [isROcc, hpk0, hkeep.1])]
          · obtain ⟨pk, h1, h2, h3⟩ := ih _ g' hmem'
            have hne : pk0 ≠ pk := by
              intro h
              subst h
              exact h2 (by simp)
            have h2' : pk ∉ seen := fun h => h2 (by simp [h])
            refine ⟨pk, h1, h2', ?_⟩
            rw [List.find?_cons_of_neg _ (by simp [isROcc, hpk0, hne]), h3]
        · simp only [specStep, hpk0, if_neg hkeep] at hmem
          obtain ⟨pk, h1, h2, h3⟩ := ih seen g' hmem
          refine ⟨pk, h1, h2, ?_⟩
          by_cases hR0 : g0.gameType = some "R"
          · have hpk0seen : pk0 ∈ seen := by
              by_contra hno
              exact hkeep ⟨hR0, hno⟩
            have hne : pk0 ≠ pk := by
              intro h
              subst h
              exact h2 hpk0seen
            rw [List.find?_cons_of_neg _ (by simp [isROcc, hpk0, hne]), h3]
          · rw [List.find?_cons_of_neg _ (by simp [isROcc, hR0]), h3]

theorem specStep_len :
    ∀ (gs : List GameJson) (seen : List Nat),
      (specStep seen gs).2.length = (specStep seen gs).1.length + seen.length := by
  intro gs
  induction gs with
  | nil => intro seen; simp [specStep]
  | cons g0 gs ih =>
      intro seen
      rcases hpk0 : g0.gamePk with _ | pk0
      · simp only [specStep, hpk0]
        exact ih seen
      · by_cases hkeep : g0.gameType = some "R" ∧ pk0 ∉ seen
        · simp only [specStep, hpk0, if_pos hkeep, List.length_cons]
          rw [ih (pk0 :: seen)]
          simp
          omega
        · simp only [specStep, hpk0, if_neg hkeep]
          exact ih seen

theorem specStep_nodup :
    ∀ (gs : List GameJson) (seen : List Nat),
      seen.Nodup → (specStep seen gs).2.Nodup := by
  intro gs
  induction gs with
  | nil => intro seen h; simpa [specStep] using h
  | cons g0 gs ih =>
      intro seen h
      rcases hpk0 : g0.gamePk with _ | pk0
      · simp only [specStep, hpk0]
        exact ih seen h
      · by_cases hkeep : g0.gameType = some "R" ∧ pk0 ∉ seen
        · simp only [specStep, hpk0, if_pos hkeep]
          exact ih _ (List.nodup_cons.2 ⟨hkeep.2, h⟩)
        · simp only [specStep, hpk0, if_neg hkeep]
          exact ih seen h

theorem specStep_sublist :
    ∀ (gs : List GameJson) (seen : List Nat), List.Sublist (specStep seen gs).1 gs := by
  intro gs
  induction gs with
  | nil => intro seen; simp [specStep]
  | cons g0 gs ih =>
      intro seen
      rcases hpk0 : g0.gamePk with _ | pk0
      · simp only [specStep, hpk0]
        exact (ih seen).cons g0
      · by_cases hkeep : g0.gameType = some "R" ∧ pk0 ∉ seen
        · simp only [specStep, hpk0, if_pos hkeep]
          exact (ih (pk0 :: seen)).cons₂ g0
        · simp only [specStep, hpk0, if_neg hkeep]
          exact (ih seen).cons g0

/-! ## Lemmas: the loop realizes the emission specification -/

/-- Master characterization of processing one game list.  Unconditionally
the rows written are an initial segment of the specified emission list,
each produced by `emitRow` from its source record; when no exception is
raised the emission list is realized exactly, and the seen set and the
counter match it. -/
theorem processGames_spec (gs : List GameJson) :
    ∀ st : RunState,
      (∃ new tail,
        (processGames st gs).1.rows = st.rows ++ new ∧
        (specStep st.processed_games gs).1 = new.map (·.src) ++ tail ∧
        ∀ r ∈ new, emitRow r.src = some r) ∧
      ((processGames st gs).2 = none →
        (processGames st gs).1.rows.map (·.src) =
          st.rows.map (·.src) ++ (specStep st.processed_games gs).1 ∧
        (processGames st gs).1.processed_games = (specStep st.processed_games gs).2 ∧
        (processGames st gs).1.game_count =
          st.game_count + (specStep st.processed_games gs).1.length ∧
        ∀ g ∈ gs, g.gamePk ≠ none) := by
  induction gs with
  | nil =>
      intro st
      constructor
      · exact ⟨[], [], by simp [processGames], by simp [specStep], by simp⟩
      · intro _
        refine ⟨by simp [processGames, specStep], by simp [processGames, specStep],
          by simp [processGames, specStep], by simp⟩
  | cons g gs ih =>
      intro st
      rcases processGame_cases st g with ⟨hpk, heq⟩ | ⟨pk, hpk, hc, heq⟩ |
        ⟨pk, hpk, hR, hmem, hrest⟩
      · have hpg : processGames st (g :: gs) = (st, some (.keyError "gamePk")) := by
          simp [processGames, heq]
        constructor
        · exact ⟨[], (specStep st.processed_games (g :: gs)).1, by simp [hpg],
            by simp, by simp⟩
        · intro hnone
          rw [hpg] at hnone
          simp at hnone
      · have hpg : processGames st (g :: gs) = processGames st gs := by
          simp [processGames, heq]
        have hnotkeep : ¬(g.gameType = some "R" ∧ pk ∉ st.processed_games) := by
          rcases hc with hc | hc
          · exact fun hk => hc hk.1
          · exact fun hk => hk.2 hc
        have hsp : specStep st.processed_games (g :: gs) =
            specStep st.processed_games gs := by
          simp only [specStep, hpk, if_neg hnotkeep]
        rw [hpg, hsp]
        obtain ⟨hpre, hsucc⟩ := ih st
        refine ⟨hpre, fun hnone => ?_⟩
        obtain ⟨h1, h2, h3, h4⟩ := hsucc hnone
        refine ⟨h1, h2, h3, fun g' hg' => ?_⟩
        rcases List.mem_cons.1 hg' with rfl | hg''
        · simp [hpk]
        · exact h4 g' hg''
      · rcases hrest with ⟨r, her, heq⟩ | ⟨e, w, hern, heq⟩
        · have hsrc : r.src = g := emitRow_src her
          obtain ⟨hpre1, hsucc1⟩ := ih ⟨pk :: st.processed_games, st.game_count + 1,
            st.rows ++ [r], st.warnings ++ warnOf g⟩
          have hpg : processGames st (g :: gs) =
              processGames ⟨pk :: st.processed_games, st.game_count + 1,
                st.rows ++ [r], st.warnings ++ warnOf g⟩ gs := by
            simp [processGames, heq]
          have hsp : specStep st.processed_games (g :: gs) =
              (g :: (specStep (pk :: st.processed_games) gs).1,
               (specStep (pk :: st.processed_games) gs).2) := by
            simp only [specStep, hpk, if_pos (And.intro hR hmem)]
          constructor
          · obtain ⟨new, tail, ha, hb, hcr⟩ := hpre1
            refine ⟨r :: new, tail, ?_, ?_, ?_⟩
            · rw [hpg, ha]
              simp
            · rw [hsp]
              simp only [List.map_cons, hsrc]
              simp only at hb
              rw [hb]
              simp
            · intro r' hr'
              rcases List.mem_cons.1 hr' with rfl | hr''
              · rw [hsrc]
                exact her
              · exact hcr r' hr''
          · intro hnone
            rw [hpg] at hnone
            obtain ⟨h1, h2, h3, h4⟩ := hsucc1 hnone
            simp only at h1 h2 h3
            refine ⟨?_, ?_, ?_, ?_⟩
            · rw [hpg, h1, hsp]
              simp [hsrc]
            · rw [hpg, h2, hsp]
            · rw [hpg, h3, hsp]
              simp
              omega
            · intro g' hg'
              rcases List.mem_cons.1 hg' with rfl | hg''
              · simp [hpk]
              · exact h4 g' hg''
        · have hpg : processGames st (g :: gs) =
              (⟨pk :: st.processed_games, st.game_count + 1,
                st.rows, st.warnings ++ w⟩, some e) := by
            simp [processGames, heq]
          constructor
          · refine ⟨[], g :: (specStep (pk :: st.processed_games) gs).1, ?_, ?_, by simp⟩
            · rw [hpg]
              simp
            · simp only [specStep, hpk, if_pos (And.intro hR hmem)]
              simp
          · intro hnone
            rw [hpg] at hnone
            simp at hnone

/-- The game records of a list of date entries, in encounter order
(entries with a missing `games` key contribute nothing; processing
aborts at such an entry anyway). -/
def flatOf (ds : List DateInfo) : List GameJson :=
  ds.flatMap (fun di => di.games.getD [])

theorem processDates_spec (ds : List DateInfo) :
    ∀ st : RunState,
      (∃ new tail,
        (processDates st ds).1.rows = st.rows ++ new ∧
        (specStep st.processed_games (flatOf ds)).1 = new.map (·.src) ++ tail ∧
        ∀ r ∈ new, emitRow r.src = some r) ∧
      ((processDates st ds).2 = none →
        (processDates st ds).1.rows.map (·.src) =
          st.rows.map (·.src) ++ (specStep st.processed_games (flatOf ds)).1 ∧
        (processDates st ds).1.processed_games =
          (specStep st.processed_games (flatOf ds)).2 ∧
        (processDates st ds).1.game_count =
          st.game_count + (specStep st.processed_games (flatOf ds)).1.length ∧
        ∀ g ∈ flatOf ds, g.gamePk ≠ none) := by
  induction ds with
  | nil =>
      intro st
      constructor
      · exact ⟨[], [], by simp [processDates], by simp [flatOf, specStep], by simp⟩
      · intro _
        refine ⟨by simp [processDates, flatOf, specStep],
          by simp [processDates, flatOf, specStep],
          by simp [processDates, flatOf, specStep], by simp [flatOf]⟩
  | cons di ds ih =>
      intro st
      rcases hgm : di.games with _ | gs
      · have hpd : processDates st (di :: ds) = (st, some (.keyError "games")) := by
          simp [processDates, hgm]
        have hfl : flatOf (di :: ds) = flatOf ds := by
          simp [flatOf, hgm]
        constructor
        · exact ⟨[], (specStep st.processed_games (flatOf (di :: ds))).1,
            by simp [hpd], by simp, by simp⟩
        · intro hnone
          rw [hpd] at hnone
          simp at hnone
      · have hfl : flatOf (di :: ds) = gs ++ flatOf ds := by
          simp [flatOf, hgm]
        rcases hre : processGames st gs with ⟨st1, e1⟩
        obtain ⟨⟨new0, tail0, ha0, hb0, hc0⟩, hsucc0⟩ := processGames_spec gs st
        rw [hre] at ha0 hsucc0
        cases e1 with
        | some e =>
            have hpd : processDates st (di :: ds) = (st1, some e) := by
              simp [processDates, hgm, hre]
            constructor
            · refine ⟨new0, tail0 ++
                (specStep (specStep st.processed_games (gs ++ flatOf ds)).2 []).1 ++
                (specStep (specStep st.processed_games gs).2 (flatOf ds)).1,
                by rw [hpd]; exact ha0, ?_, hc0⟩
              rw [hfl, specStep_append]
              simp only []
              rw [hb0]
              simp [specStep]
            · intro hnone
              rw [hpd] at hnone
              simp at hnone
        | none =>
            have hpd : processDates st (di :: ds) = processDates st1 ds := by
              simp [processDates, hgm, hre]
            obtain ⟨h1, h2, h3, h4⟩ := hsucc0 rfl
            simp only [] at h1 h2 h3
            have htail0 : tail0 = [] := by
              have := h1
              rw [ha0, List.map_append, hb0] at this
              have hlen := congrArg List.length this
              simp at hlen
              exact hlen
            have hb0' : (specStep st.processed_games gs).1 = new0.map (·.src) := by
              rw [hb0, htail0, List.append_nil]
            obtain ⟨⟨new1, tail1, ha1, hb1, hc1⟩, hsucc1⟩ := ih st1
            constructor
            · refine ⟨new0 ++ new1, tail1, ?_, ?_, ?_⟩
              · rw [hpd, ha1, ha0, List.append_assoc]
              · rw [hfl, specStep_append]
                simp only []
                rw [hb0', ← h2, hb1]
                simp
              · intro r hr
                rcases List.mem_append.1 hr with hr | hr
                · exact hc0 r hr
                · exact hc1 r hr
            · intro hnone
              rw [hpd] at hnone
              obtain ⟨k1, k2, k3, k4⟩ := hsucc1 hnone
              refine ⟨?_, ?_, ?_, ?_⟩
              · rw [hpd, k1, h1, hfl, specStep_append]
                simp only []
                rw [hb0', ← h2]
                simp
              · rw [hpd, k2, hfl, specStep_append]
                simp only []
                rw [← h2]
              · rw [hpd, k3, h3, hfl, specStep_append]
                simp only []
                rw [← h2]
                simp
                omega
              · intro g hg
                rw [hfl] at hg
                rcases List.mem_append.1 hg with hg | hg
                · exact h4 g hg
                · exact k4 g hg

/-- Master characterization of a whole run: the rows written are an
initial segment of the emission specification over the encounter-order
game list, each produced by `emitRow`; a run with no exception realizes
the specification exactly. -/
theorem get_mlb_schedule_spec (sched : Schedule) :
    (∃ new tail,
      (get_mlb_schedule sched).1.rows = new ∧
      (specStep [] (flatGames sched)).1 = new.map (·.src) ++ tail ∧
      ∀ r ∈ new, emitRow r.src = some r) ∧
    ((get_mlb_schedule sched).2 = none →
      (get_mlb_schedule sched).1.rows.map (·.src) = (specStep [] (flatGames sched)).1 ∧
      (get_mlb_schedule sched).1.processed_games = (specStep [] (flatGames sched)).2 ∧
      (get_mlb_schedule sched).1.game_count = (specStep [] (flatGames sched)).1.length ∧
      ∀ g ∈ flatGames sched, g.gamePk ≠ none) := by
  rcases hd : sched.dates with _ | ds
  · have hrun : get_mlb_schedule sched = (initState, none) := by
      simp [get_mlb_schedule, hd]
    have hfg : flatGames sched = [] := by simp [flatGames, hd]
    rw [hrun, hfg]
    constructor
    · exact ⟨[], [], rfl, by simp [specStep, initState], by simp [initState]⟩
    · intro _
      exact ⟨by simp [specStep, initState], by simp [specStep, initState],
        by simp [specStep, initState], by simp⟩
  · by_cases hds : ds = []
    · subst hds
      have hrun : get_mlb_schedule sched = (initState, none) := by
        simp [get_mlb_schedule, hd]
      have hfg : flatGames sched = [] := by simp [flatGames, hd]
      rw [hrun, hfg]
      constructor
      · exact ⟨[], [], rfl, by simp [specStep, initState], by simp [initState]⟩
      · intro _
        exact ⟨by simp [specStep, initState], by simp [specStep, initState],
          by simp [specStep, initState], by simp⟩
    · have hrun : get_mlb_schedule sched = processDates initState ds := by
        simp [get_mlb_schedule, hd, hds]
      have hfg : flatGames sched = flatOf ds := by
        simp [flatGames, flatOf, hd]
      obtain ⟨hpre, hsucc⟩ := processDates_spec ds initState
      rw [hrun, hfg]
      constructor
      · obtain ⟨new, tail, ha, hb, hc⟩ := hpre
        exact ⟨new, tail, by simpa [initState] using ha,
          by simpa [initState] using hb, hc⟩
      · intro hnone
        obtain ⟨h1, h2, h3, h4⟩ := hsucc hnone
        exact ⟨by simpa [initState] using h1, by simpa [initState] using h2,
          by simpa [initState] using h3, h4⟩

/-! ## Lemmas: at most one row per identifier -/

theorem filter_append_singleton {α : Type} (p : α → Bool) (l : List α) (a : α) :
    (List.filter p (l ++ [a])).length =
      (List.filter p l).length + (if p a then 1 else 0) := by
  rw [List.filter_append, List.length_append]
  congr 1
  by_cases h : p a <;> simp [h]

theorem pkInv_processGame {st : RunState} (h : PkInv st) (g : GameJson) :
    PkInv (processGame st g).1 := by
  rcases processGame_cases st g with ⟨_, heq⟩ | ⟨pk, _, _, heq⟩ |
    ⟨pk, hpk, hR, hmem, hrest⟩
  · rw [heq]; exact h
  · rw [heq]; exact h
  · rcases hrest with ⟨r, her, heq⟩ | ⟨e, w, _, heq⟩
    · rw [heq]
      have hsrc : r.src = g := emitRow_src her
      intro pk'
      have hfil : rowsForPk pk'
          ⟨pk :: st.processed_games, st.game_count + 1,
            st.rows ++ [r], st.warnings ++ warnOf g⟩ =
          rowsForPk pk' st + (if r.src.gamePk == some pk' then 1 else 0) := by
        unfold rowsForPk
        exact filter_append_singleton _ st.rows r
      constructor
      · intro hmem'
        rw [hfil]
        by_cases hpp : pk' = pk
        · subst hpp
          have h0 : rowsForPk pk' st = 0 := (h pk').2 hmem
          rw [h0]
          split <;> simp
        · have hin : pk' ∈ st.processed_games := by
            rcases List.mem_cons.1 hmem' with h' | h'
            · exact absurd h' hpp
            · exact h'
          have h1 := (h pk').1 hin
          have hne : (r.src.gamePk == some pk') = false := by
            simp [hsrc, hpk]
            exact fun h' => hpp h'.symm
          rw [hne]
          simpa using h1
      · intro hmem'
        rw [hfil]
        have hpp : pk' ≠ pk := fun h' => hmem' (h' ▸ List.mem_cons_self pk _)
        have hout : pk' ∉ st.processed_games :=
          fun h' => hmem' (List.mem_cons_of_mem pk h')
        have h0 : rowsForPk pk' st = 0 := (h pk').2 hout
        have hne : (r.src.gamePk == some pk') = false := by
          simp [hsrc, hpk]
          exact fun h' => hpp h'.symm
        rw [h0, hne]
        simp
    · rw [heq]
      intro pk'
      have hfil : rowsForPk pk'
          ⟨pk :: st.processed_games, st.game_count + 1,
            st.rows, st.warnings ++ w⟩ = rowsForPk pk' st := rfl
      constructor
      · intro hmem'
        rw [hfil]
        by_cases hpp : pk' = pk
        · subst hpp
          rw [(h pk').2 hmem]
          omega
        · have hin : pk' ∈ st.processed_games := by
            rcases List.mem_cons.1 hmem' with h' | h'
            · exact absurd h' hpp
            · exact h'
          exact (h pk').1 hin
      · intro hmem'
        rw [hfil]
        exact (h pk').2 fun h' => hmem' (List.mem_cons_of_mem pk h')

theorem pkInv_processGames (gs : List GameJson) :
    ∀ st, PkInv st → PkInv (processGames st gs).1 := by
  induction gs with
  | nil => intro st h; simpa [processGames] using h
  | cons g gs ih =>
      intro st h
      have h1 := pkInv_processGame h g
      rcases hre : processGame st g with ⟨st1, e1⟩
      rw [hre] at h1
      cases e1 with
      | none => simpa [processGames, hre] using ih st1 h1
      | some e => simpa [processGames, hre] using h1

theorem pkInv_processDates (ds : List DateInfo) :
    ∀ st, PkInv st → PkInv (processDates st ds).1 := by
  induction ds with
  | nil => intro st h; simpa [processDates] using h
  | cons di ds ih =>
      intro st h
      rcases hgm : di.games with _ | gs
      · simpa [processDates, hgm] using h
      · have h1 := pkInv_processGames gs st h
        rcases hre : processGames st gs with ⟨st1, e1⟩
        rw [hre] at h1
        cases e1 with
        | none => simpa [processDates, hgm, hre] using ih st1 h1
        | some e => simpa [processDates, hgm, hre] using h1

theorem pkInv_initState : PkInv initState := by
  intro pk
  constructor
  · intro h
    simp [initState] at h
  · intro _
    rfl

theorem pkInv_run (sched : Schedule) : PkInv (get_mlb_schedule sched).1 := by
  rcases hd : sched.dates with _ | ds
  · simpa [get_mlb_schedule, hd] using pkInv_initState
  · by_cases hds : ds = []
    · subst hds
      simpa [get_mlb_schedule, hd] using pkInv_initState
    · simpa [get_mlb_schedule, hd, hds] using
        pkInv_processDates ds initState pkInv_initState

/-! ## Lemmas: payloads without regular-season games -/

theorem processGames_nonR (gs : List GameJson) :
    ∀ st, (∀ g ∈ gs, g.gameType ≠ some "R") → (processGames st gs).1 = st := by
  induction gs with
  | nil => intro st _; simp [processGames]
  | cons g gs ih =>
      intro st h
      have hst := @processGame_nonR st g (h g (by simp))
      rcases hre : processGame st g with ⟨st1, e1⟩
      rw [hre] at hst
      simp only [] at hst
      cases e1 with
      | none =>
          have h2 := (ih st1 (fun g' hg' => h g' (by simp [hg']))).trans hst
          simpa [processGames, hre] using h2
      | some e => simpa [processGames, hre] using hst

theorem processDates_nonR (ds : List DateInfo) :
    ∀ st, (∀ g ∈ flatOf ds, g.gameType ≠ some "R") → (processDates st ds).1 = st := by
  induction ds with
  | nil => intro st _; simp [processDates]
  | cons di ds ih =>
      intro st h
      rcases hgm : di.games with _ | gs
      · simp [processDates, hgm]
      · have hgs : ∀ g ∈ gs, g.gameType ≠ some "R" := by
          intro g hg
          exact h g (by simp [flatOf, hgm, hg])
        have hst := processGames_nonR gs st hgs
        rcases hre : processGames st gs with ⟨st1, e1⟩
        rw [hre] at hst
        simp only [] at hst
        cases e1 with
        | none =>
            have h2 := (ih st1 (fun g' hg' => h g'
              (by simp only [flatOf, List.flatMap_cons, hgm, Option.getD_some, List.mem_append]
                  right
                  simpa [flatOf] using hg'))).trans hst
            simpa [processDates, hgm, hre] using h2
        | some e => simpa [processDates, hgm, hre] using hst

theorem run_nonR {sched : Schedule} (h : noRGames sched) :
    (get_mlb_schedule sched).1 = initState := by
  rcases hd : sched.dates with _ | ds
  · simp [get_mlb_schedule, hd]
  · by_cases hds : ds = []
    · subst hds
      simp [get_mlb_schedule, hd]
    · have : ∀ g ∈ flatOf ds, g.gameType ≠ some "R" := by
        intro g hg
        exact h g (by simpa [flatGames, flatOf, hd] using hg)
      simpa [get_mlb_schedule, hd, hds] using processDates_nonR ds initState this

/-! ## Lemmas: properties of every written row -/

/-- Every row of the output (of a completed or an aborted run) was
produced by `emitRow` from its source record, and that record is the
first regular-season occurrence of its identifier in the payload. -/
theorem run_row_src {sched : Schedule} {r : Row}
    (hr : r ∈ (get_mlb_schedule sched).1.rows) :
    emitRow r.src = some r ∧
    ∃ pk, r.src.gamePk = some pk ∧
      (flatGames sched).find? (isROcc pk) = some r.src := by
  obtain ⟨⟨new, tail, ha, hb, hc⟩, _⟩ := get_mlb_schedule_spec sched
  rw [ha] at hr
  refine ⟨hc r hr, ?_⟩
  have hmm : r.src ∈ (specStep [] (flatGames sched)).1 := by
    rw [hb]
    exact List.mem_append_left _ (List.mem_map_of_mem _ hr)
  obtain ⟨pk, h1, _, h3⟩ := specStep_first _ _ _ hmm
  exact ⟨pk, h1, h3⟩

/-- The abbreviation attached by a conversion into a fixed-offset zone
is that zone's abbreviation. -/
theorem astimezone_fixed_abbr {e : Int} {off : Int} {a : String} {loc : LocalDT}
    (h : astimezone e (.fixed off a) = some loc) : loc.abbr = a := by
  simp only [astimezone] at h
  split at h
  · exact absurd h (by simp)
  · split at h
    · exact absurd h (by simp)
    · simp only [Option.some.injEq] at h
      subst h
      rfl

/-! ## Claim theorems -/

/-- C3: for every game in the payload whose game-type marker is not
`R` (including a missing marker), no output row for that game appears
in the CSV: every written row's source record carries the marker `R`,
so it is never such a game.  This holds for completed and for aborted
runs alike. -/
theorem c3_nonR_no_row (sched : Schedule) (g : GameJson) (r : Row)
    (hg : g.gameType ≠ some "R")
    (hr : r ∈ (get_mlb_schedule sched).1.rows) :
    r.src ≠ g := by
  obtain ⟨_, pk, _, hfind⟩ := run_row_src hr
  have hP := List.find?_some hfind
  simp only [isROcc, Bool.and_eq_true, beq_iff_eq] at hP
  intro hEq
  rw [hEq] at hP
  exact hg hP.2

/-- Witness for C3 at a concrete payload: the non-regular-season
occurrence of identifier 745804 is not the source of the emitted row. -/
theorem c3_witness : fenwayRow.src ≠ steinbrennerGame :=
  c3_nonR_no_row dupRSched steinbrennerGame fenwayRow (by decide) (by decide)

/-- C7: the CSV output begins with the fixed header row whose five
fields are `Date`, `Local Start Time`, `Away Team`, `Home Team`,
`Venue` (the embedding models CSV rows as cell lists; the
comma-joining and quoting of `csv.writer` are below the level of the
model), and every data row has a date field of shape `YYYY-MM-DD` and
a time field of shape `hh:mm AM/PM` followed by a nonempty alphabetic
timezone abbreviation. -/
theorem c7_header_and_formats (sched : Schedule) :
    (csvContent (get_mlb_schedule sched).1).head? = some headerRow ∧
    ∀ r ∈ (get_mlb_schedule sched).1.rows,
      dateShape r.date_str = true ∧ timeShape r.time_str = true := by
  refine ⟨rfl, fun r hr => ?_⟩
  obtain ⟨her, _⟩ := run_row_src hr
  exact emitRow_shape her

/-- Witness for C7 at a concrete payload. -/
theorem c7_witness :
    (csvContent (get_mlb_schedule fenwaySched).1).head? = some headerRow ∧
    (dateShape fenwayRow.date_str = true ∧ timeShape fenwayRow.time_str = true) := by
  have h := c7_header_and_formats fenwaySched
  exact ⟨h.1, h.2 fenwayRow (by decide)⟩

/-- C4: a game with UTC start time `2025-04-01T23:05:00Z` at venue
`Fenway Park` (zone America/New_York, in daylight-saving time at that
instant) is emitted with local date `2025-04-01` and local time
`07:05 PM EDT`. -/
theorem c4_fenway_conversion :
    (get_mlb_schedule fenwaySched).2 = none ∧
    (get_mlb_schedule fenwaySched).1.rows.map rowCells =
      [["2025-04-01", "07:05 PM EDT", "New York Yankees", "Boston Red Sox",
        "Fenway Park"]] := by
  constructor
  · decide
  · decide

/-- C10: on every run that completes without an exception, the reported
count equals the number of data rows and equals the size of the seen
set (which is duplicate-free, so its length is its cardinality). -/
theorem c10_count_invariant (sched : Schedule) (st : RunState)
    (h : get_mlb_schedule sched = (st, none)) :
    st.game_count = st.rows.length ∧
    st.game_count = st.processed_games.length ∧
    st.processed_games.Nodup := by
  obtain ⟨_, hsucc⟩ := get_mlb_schedule_spec sched
  rw [h] at hsucc
  obtain ⟨h1, h2, h3, _⟩ := hsucc rfl
  have hlen : st.rows.length = (specStep [] (flatGames sched)).1.length := by
    have := congrArg List.length h1
    simpa using this
  refine ⟨by rw [h3, hlen], ?_, ?_⟩
  · rw [h3, h2, specStep_len]
    simp
  · rw [h2]
    exact specStep_nodup _ _ (by simp)

/-- Witness for C10 at a concrete payload. -/
theorem c10_witness :
    (get_mlb_schedule dupRSched).1.game_count =
      (get_mlb_schedule dupRSched).1.rows.length ∧
    (get_mlb_schedule dupRSched).1.game_count =
      (get_mlb_schedule dupRSched).1.processed_games.length ∧
    (get_mlb_schedule dupRSched).1.processed_games.Nodup :=
  c10_count_invariant dupRSched (get_mlb_schedule dupRSched).1 (by decide)

/-- C8: the CSV consists of the header followed by the data rows, and
the data rows appear in API-encounter order: on a completed run the
sources of the rows are exactly the emission specification over the
flattened payload (outer date entries, then inner game lists), which
is an order-preserving sublist of that flattening. -/
theorem c8_encounter_order (sched : Schedule) (st : RunState)
    (h : get_mlb_schedule sched = (st, none)) :
    csvContent st = headerRow :: st.rows.map rowCells ∧
    st.rows.map (·.src) = (specStep [] (flatGames sched)).1 ∧
    List.Sublist (st.rows.map (·.src)) (flatGames sched) := by
  obtain ⟨_, hsucc⟩ := get_mlb_schedule_spec sched
  rw [h] at hsucc
  obtain ⟨h1, _, _, _⟩ := hsucc rfl
  have h1' : st.rows.map (·.src) = (specStep [] (flatGames sched)).1 := by
    simpa using h1
  refine ⟨rfl, h1', ?_⟩
  rw [h1']
  exact specStep_sublist _ _

/-- Witness for C8 at a concrete payload. -/
theorem c8_witness :
    csvContent (get_mlb_schedule dupRSched).1 =
      headerRow :: (get_mlb_schedule dupRSched).1.rows.map rowCells ∧
    (get_mlb_schedule dupRSched).1.rows.map (·.src) =
      (specStep [] (flatGames dupRSched)).1 ∧
    List.Sublist ((get_mlb_schedule dupRSched).1.rows.map (·.src))
      (flatGames dupRSched) :=
  c8_encounter_order dupRSched (get_mlb_schedule dupRSched).1 (by decide)

/-- C9: on a completed run, the row emitted for an identifier takes its
fields from the first occurrence in encounter order whose game-type
marker is `R` (the row is `emitRow` of that occurrence, and that
occurrence is the `find?`-first regular-season occurrence of its
identifier); conversely every identifier with a regular-season
occurrence gets a row from exactly that first occurrence, so earlier
non-`R` occurrences do not suppress a later `R` occurrence. -/
theorem c9_first_R_occurrence (sched : Schedule) (st : RunState)
    (h : get_mlb_schedule sched = (st, none)) :
    (∀ r ∈ st.rows, emitRow r.src = some r ∧
      ∀ pk, r.src.gamePk = some pk →
        (flatGames sched).find? (isROcc pk) = some r.src) ∧
    (∀ pk g, (flatGames sched).find? (isROcc pk) = some g →
      ∃ r ∈ st.rows, r.src = g) := by
  constructor
  · intro r hr
    have hr' : r ∈ (get_mlb_schedule sched).1.rows := by rw [h]; exact hr
    obtain ⟨her, pk', hpk', hfind⟩ := run_row_src hr'
    refine ⟨her, fun pk hpk => ?_⟩
    rw [hpk'] at hpk
    injection hpk with hpk
    subst hpk
    exact hfind
  · intro pk g hfind
    have hginfo := List.find?_some hfind
    simp only [isROcc, Bool.and_eq_true, beq_iff_eq] at hginfo
    have hgmem := List.mem_of_find?_eq_some hfind
    have hpk2 : pk ∈ (specStep [] (flatGames sched)).2 :=
      specStep_R_mem _ _ _ _ hgmem hginfo.1 hginfo.2
    obtain ⟨_, hsucc⟩ := get_mlb_schedule_spec sched
    rw [h] at hsucc
    obtain ⟨h1, _, _, _⟩ := hsucc rfl
    rcases specStep_seen_src _ _ _ hpk2 with habs | ⟨g', hg', hgpk'⟩
    · simp at habs
    · have h1' : st.rows.map (·.src) = (specStep [] (flatGames sched)).1 := by
        simpa using h1
      rw [← h1'] at hg'
      obtain ⟨r, hrmem, hrsrc⟩ := List.mem_map.1 hg'
      have hr' : r ∈ (get_mlb_schedule sched).1.rows := by rw [h]; exact hrmem
      obtain ⟨_, pk'', hpk'', hfind''⟩ := run_row_src hr'
      have hpkeq : pk = pk'' := by
        rw [hrsrc, hgpk'] at hpk''
        injection hpk''
      subst hpkeq
      have hsg := hfind''.symm.trans hfind
      injection hsg with hsg
      exact ⟨r, hrmem, hsg⟩

/-- Witness for C9 at a concrete payload: identifier 745804 has a
non-`R` occurrence before its first `R` occurrence, and the `R`
occurrence still produces the row. -/
theorem c9_witness :
    ∃ r ∈ (get_mlb_schedule dupRSched).1.rows, r.src = fenwayGame := by
  have h := c9_first_R_occurrence dupRSched (get_mlb_schedule dupRSched).1 (by decide)
  exact h.2 745804 fenwayGame (by decide)

/-- Counterexample to C2 as stated: identifier 600001 appears twice in
the raw payload, both occurrences spring training, the run completes,
and zero (not exactly one) rows are emitted for it. -/
theorem c2_counterexample :
    ((flatGames dupSpringSched).filter (fun g => g.gamePk == some 600001)).length = 2 ∧
    (get_mlb_schedule dupSpringSched).2 = none ∧
    rowsForPk 600001 (get_mlb_schedule dupSpringSched).1 = 0 := by
  decide

/-- C2 (amended): for every identifier appearing more than once in the
raw payload, at most one row is emitted for it; exactly one when the
run completes without an exception and at least one occurrence carries
the regular-season marker. -/
theorem c2_amended (sched : Schedule) (pk : Nat)
    (_hdup : 1 < ((flatGames sched).filter (fun g => g.gamePk == some pk)).length) :
    rowsForPk pk (get_mlb_schedule sched).1 ≤ 1 ∧
    ((get_mlb_schedule sched).2 = none →
      (∃ g ∈ flatGames sched, g.gamePk = some pk ∧ g.gameType = some "R") →
      rowsForPk pk (get_mlb_schedule sched).1 = 1) := by
  have hinv := pkInv_run sched pk
  have hle : rowsForPk pk (get_mlb_schedule sched).1 ≤ 1 := by
    by_cases hmem : pk ∈ (get_mlb_schedule sched).1.processed_games
    · exact hinv.1 hmem
    · rw [hinv.2 hmem]
      omega
  refine ⟨hle, ?_⟩
  rintro hnone ⟨g, hg, hpk, hR⟩
  obtain ⟨_, hsucc⟩ := get_mlb_schedule_spec sched
  obtain ⟨h1, _, _, _⟩ := hsucc hnone
  have hpk2 : pk ∈ (specStep [] (flatGames sched)).2 :=
    specStep_R_mem _ _ _ _ hg hpk hR
  rcases specStep_seen_src _ _ _ hpk2 with habs | ⟨g', hg', hgpk'⟩
  · simp at habs
  · have h1' : (get_mlb_schedule sched).1.rows.map (·.src) =
        (specStep [] (flatGames sched)).1 := by
      simpa using h1
    rw [← h1'] at hg'
    obtain ⟨r, hrmem, hrsrc⟩ := List.mem_map.1 hg'
    have hpred : (r.src.gamePk == some pk) = true := by
      simp [hrsrc, hgpk']
    have hmemf : r ∈ (get_mlb_schedule sched).1.rows.filter
        (fun r => r.src.gamePk == some pk) :=
      List.mem_filter.2 ⟨hrmem, hpred⟩
    have hge1 : 0 < rowsForPk pk (get_mlb_schedule sched).1 := by
      unfold rowsForPk
      exact List.length_pos.2 (List.ne_nil_of_mem hmemf)
    omega

/-- Witness for C2 (amended) at a concrete payload: identifier 745804
appears three times, once with marker `R`, and gets exactly one row. -/
theorem c2_witness :
    rowsForPk 745804 (get_mlb_schedule dupRSched).1 ≤ 1 ∧
    rowsForPk 745804 (get_mlb_schedule dupRSched).1 = 1 := by
  have h := c2_amended dupRSched 745804 (by decide)
  exact ⟨h.1, h.2 (by decide) ⟨fenwayGame, by decide, by decide, by decide⟩⟩

/-- Counterexample to C1 as stated: a record whose game-type marker is
missing (one of the listed required keys) does not abort the run with a
parse error — the record is read with `.get`, treated as non-regular
season and skipped, and the run completes normally with the no-games
report. -/
theorem c1_counterexample :
    noTypeGame.gameType = none ∧
    (get_mlb_schedule noTypeSched).2 = none ∧
    (get_mlb_schedule noTypeSched).1.rows = [] ∧
    finalMessages (get_mlb_schedule noTypeSched) = [noGamesMsg1, noGamesMsg2] := by
  decide

/-- C1 (amended): a record missing its identifier always aborts the run
with the reported parse error the moment it is reached (so a payload
containing such a record never completes); a kept record missing its
timestamp, team-name or venue key aborts with a reported parse error
right after entering the seen set, with no row written for it; the
reported line for a `KeyError` is the parse-error message; a missing
game-type marker does not abort (the record is skipped, see the
counterexample); and no written row ever comes from a record missing
any of the read keys. -/
theorem c1_amended :
    (∀ (st : RunState) (g : GameJson), g.gamePk = none →
      processGame st g = (st, some (.keyError "gamePk"))) ∧
    (∀ (sched : Schedule) (g : GameJson), g ∈ flatGames sched →
      g.gamePk = none → (get_mlb_schedule sched).2 ≠ none) ∧
    (∀ (st : RunState) (g : GameJson) (pk : Nat),
      g.gamePk = some pk → g.gameType = some "R" → pk ∉ st.processed_games →
      (g.gameDate = none ∨ g.awayTeamName = none ∨ g.homeTeamName = none ∨
        g.venueName = none) →
      ∃ k, processGame st g =
        (⟨pk :: st.processed_games, st.game_count + 1, st.rows, st.warnings⟩,
         some (.keyError k))) ∧
    (∀ k, errorMessage (.keyError k) =
      "Could not parse the API response. Unexpected data structure: Missing key "
        ++ k) ∧
    (∀ (sched : Schedule) (r : Row), r ∈ (get_mlb_schedule sched).1.rows →
      r.src.gamePk ≠ none ∧ r.src.gameDate ≠ none ∧ r.src.awayTeamName ≠ none ∧
      r.src.homeTeamName ≠ none ∧ r.src.venueName ≠ none) := by
  refine ⟨fun st g h => processGame_noPk h, ?_, ?_, fun k => rfl, ?_⟩
  · intro sched g hmem hpk hnone
    obtain ⟨_, hsucc⟩ := get_mlb_schedule_spec sched
    obtain ⟨_, _, _, h4⟩ := hsucc hnone
    exact h4 g hmem hpk
  · intro st g pk hpk hR hmem hmiss
    exact processGame_keyErr hpk hR hmem hmiss
  · intro sched r hr
    obtain ⟨her, pk, hpk, _⟩ := run_row_src hr
    obtain ⟨h1, h2, h3, h4⟩ := emitRow_fields her
    exact ⟨by simp [hpk], h1, h2, h3, h4⟩

/-- Witness for C1 (amended) at concrete inputs: the payload with a
record missing its identifier aborts, and a kept record missing its
timestamp raises a `KeyError` with no row written. -/
theorem c1_witness :
    (get_mlb_schedule noPkSched).2 ≠ none ∧
    ∃ k, processGame initState noDateGame =
      (⟨[745901], 1, [], []⟩, some (.keyError k)) := by
  refine ⟨c1_amended.2.1 noPkSched noPkGame (by decide) (by decide), ?_⟩
  exact c1_amended.2.2.1 initState noDateGame 745901 (by decide) (by decide)
    (by decide) (Or.inl (by decide))

/-- C5: a kept game whose venue is absent from the static table is
emitted with the UTC fallback — the conversion uses the fixed zone
`UTC`, whose abbreviation appears in the time string — a warning for
that venue is appended, no exception is raised, and the loop proceeds
to the remaining games from the updated state. -/
theorem c5_unknown_venue (st : RunState) (g : GameJson) (pk : Nat)
    (venue : String) (r : Row)
    (hpk : g.gamePk = some pk) (hR : g.gameType = some "R")
    (hmem : pk ∉ st.processed_games) (hvn : g.venueName = some venue)
    (hunknown : venue_timezones.lookup venue = none)
    (her : emitRow g = some r) :
    processGame st g =
      (⟨pk :: st.processed_games, st.game_count + 1, st.rows ++ [r],
        st.warnings ++ [warnMsg venue]⟩, none) ∧
    (∀ rest, processGames st (g :: rest) =
      processGames ⟨pk :: st.processed_games, st.game_count + 1, st.rows ++ [r],
        st.warnings ++ [warnMsg venue]⟩ rest) ∧
    ∃ ds epoch loc, g.gameDate = some ds ∧
      fromisoformat (replaceZ ds) = some epoch ∧
      astimezone epoch (.fixed 0 "UTC") = some loc ∧
      loc.abbr = "UTC" ∧ r.date_str = fmtDate loc ∧ r.time_str = fmtTime loc := by
  have hutc : venueTzOf venue = "UTC" := by
    simp [venueTzOf, hunknown]
  have hwarn : warnOf g = [warnMsg venue] := by
    simp [warnOf, hvn, hutc]
  have hmain := processGame_emit hpk hR hmem her
  rw [hwarn] at hmain
  refine ⟨hmain, fun rest => by simp [processGames, hmain], ?_⟩
  obtain ⟨ds, away, home, venue', epoch, rule, loc, hds, _, _, hvn', hiso, hrule,
    hast, hreq⟩ := emitRow_eq her
  rw [hvn] at hvn'
  injection hvn' with hvv
  subst hvv
  rw [hutc] at hrule
  have hZ : zoneRuleOf "UTC" = some (.fixed 0 "UTC") := rfl
  rw [hZ] at hrule
  injection hrule with hrule
  subst hrule
  exact ⟨ds, epoch, loc, hds, hiso, hast, astimezone_fixed_abbr hast,
    by rw [hreq], by rw [hreq]⟩

/-- Witness for C5 at a concrete input: the game at the venue
`Field of Dreams` (absent from the table) is emitted with UTC time and
the warning is recorded, without an exception. -/
theorem c5_witness :
    processGame initState unknownVenueGame =
      (⟨[745900], 1, [unknownVenueRow], [warnMsg "Field of Dreams"]⟩, none) :=
  (c5_unknown_venue initState unknownVenueGame 745900 "Field of Dreams"
    unknownVenueRow (by decide) (by decide) (by decide) (by decide) (by decide)
    (by decide)).1

/-- Counterexample to C6 as stated: a payload with zero regular-season
games in which a record is missing its identifier: the file still holds
only the header (no rows), but the run aborts with the parse error, so
the distinct no-games message is not produced. -/
theorem c6_counterexample :
    (∀ g ∈ flatGames noPkSched, g.gameType ≠ some "R") ∧
    (get_mlb_schedule noPkSched).1.rows = [] ∧
    finalMessages (get_mlb_schedule noPkSched) =
      [errorMessage (.keyError "gamePk")] ∧
    noGamesMsg1 ∉ finalMessages (get_mlb_schedule noPkSched) := by
  decide

/-- C6 (amended): when the payload has an empty (or missing) dates list
or zero regular-season games, the output always holds the header row
and nothing else; when additionally the run is not aborted by an
exception, the distinct two-line no-games report is produced and the
save confirmation accompanying every nonzero count report is absent. -/
theorem c6_amended (sched : Schedule) (h : noRGames sched) :
    (get_mlb_schedule sched).1.rows = [] ∧
    csvContent (get_mlb_schedule sched).1 = [headerRow] ∧
    ((get_mlb_schedule sched).2 = none →
      finalMessages (get_mlb_schedule sched) = [noGamesMsg1, noGamesMsg2] ∧
      savedMsg ∉ finalMessages (get_mlb_schedule sched)) := by
  have hst := run_nonR h
  refine ⟨by rw [hst]; rfl, by rw [hst]; rfl, ?_⟩
  intro hnone
  have hpair : get_mlb_schedule sched = (initState, none) := by
    rw [← hst, ← hnone]
  rw [hpair]
  exact ⟨rfl, by decide⟩

/-- Witness for C6 (amended) at a concrete payload with games but none
regular season. -/
theorem c6_witness :
    (get_mlb_schedule dupSpringSched).1.rows = [] ∧
    csvContent (get_mlb_schedule dupSpringSched).1 = [headerRow] ∧
    finalMessages (get_mlb_schedule dupSpringSched) = [noGamesMsg1, noGamesMsg2] ∧
    savedMsg ∉ finalMessages (get_mlb_schedule dupSpringSched) := by
  have h := c6_amended dupSpringSched (by unfold noRGames; decide)
  exact ⟨h.1, h.2.1, (h.2.2 (by decide)).1, (h.2.2 (by decide)).2⟩

end MlbIngest
